import Mathlib

/-!
Verification development for the Shader-Lab-3D shader validation-and-hot-swap
pipeline.  The definitions below are shallow embeddings of the code in
`src/types.ts` (which bundles `types.ts`, the editor panel, the 3D scene
component `ShaderMesh`, and the `Controls` panel) and `src/App.tsx`.
Machine numbers (JS `number`) are modelled as exact rationals `ℚ`; the GPU
compiler is modelled as an abstract oracle per the narrow capability
interface the code uses.
-/

namespace ShaderLab

/-! ## Diagnostic normalizer (`parseErrorLog`, src/types.ts lines 227-239) -/

/-- Embedding of the fixed vertex-stage header `THREE_VERTEX_PREFIX`
(src/types.ts lines 204-217), a JS template literal that starts and ends
with a newline. -/
def threeVertexHeader : String :=
  "\n#define SHADER_NAME ShaderMaterial\n#define VERTEX\nprecision highp float;\nuniform mat4 modelMatrix;\nuniform mat4 modelViewMatrix;\nuniform mat4 projectionMatrix;\nuniform mat4 viewMatrix;\nuniform mat3 normalMatrix;\nuniform vec3 cameraPosition;\nattribute vec3 position;\nattribute vec3 normal;\nattribute vec2 uv;\n"

/-- Embedding of the fixed fragment-stage header `THREE_FRAGMENT_PREFIX`
(src/types.ts lines 219-225). -/
def threeFragmentHeader : String :=
  "\n#define SHADER_NAME ShaderMaterial\n#define FRAGMENT\nprecision highp float;\nuniform mat4 viewMatrix;\nuniform vec3 cameraPosition;\n"

/-- Embedding of `countLines` (src/types.ts line 228): the number of
newline characters in the string (`(str.match(/\n/g) || []).length`). -/
def countLines (s : String) : Nat :=
  (s.data.filter (fun c => c = '\n')).length

/-- Embedding of `VERTEX_OFFSET` (src/types.ts line 229). -/
def vertexOffset : Nat := countLines threeVertexHeader

/-- Embedding of `FRAGMENT_OFFSET` (src/types.ts line 230). -/
def fragmentOffset : Nat := countLines threeFragmentHeader

/-- Numeric value of a decimal digit list, as JS `parseInt` computes it on a
string of digits. -/
def valDigits (ds : List Char) : Nat :=
  ds.foldl (fun a c => 10 * a + (c.toNat - 48)) 0

/-- Decimal digit character for `n < 10`. -/
def digitChar (n : Nat) : Char := Char.ofNat (48 + n)

/-- Fuelled most-significant-first decimal rendering (the digits emitted by
JS template-string interpolation of a nonnegative integer). -/
def natDigitsAux : Nat → Nat → List Char → List Char
  | 0, _, acc => acc
  | fuel + 1, n, acc =>
    if n < 10 then digitChar n :: acc
    else natDigitsAux fuel (n / 10) (digitChar (n % 10) :: acc)

/-- Decimal digits of a natural number (`fuel := n + 1` always suffices). -/
def natToDigits (n : Nat) : List Char := natDigitsAux (n + 1) n []

/-- Literal characters of the matched tag `"ERROR: "` in the regex
`/ERROR: \d+:(\d+):/g`. -/
def errTag : List Char := [ 'E', 'R', 'R', 'O', 'R', ':', ' ' ]

/-- Literal characters of the replacement tag `"ERROR: line "`. -/
def lineTag : List Char :=
  [ 'E', 'R', 'R', 'O', 'R', ':', ' ', 'l', 'i', 'n', 'e', ' ' ]

/-- Embedding of the adjusted line computation
`Math.max(1, parseInt(line) - offset)` (src/types.ts line 236); on naturals,
truncated subtraction then clamping below at 1 agrees with the JS
computation on signed numbers. -/
def fixLine (offset line : Nat) : Nat := max 1 (line - offset)

/-- Replacement text produced for one matched occurrence:
`ERROR: line ${adjusted}:` (src/types.ts line 237). -/
def rewriteTok (offset line : Nat) : List Char :=
  lineTag ++ natToDigits (fixLine offset line) ++ [ ':' ]

/-- Consume one expected colon at the head of the list. -/
def afterColon : List Char → Option (List Char)
  | c :: r => if c = ':' then some r else none
  | [] => none

/-- Matcher for the regex `ERROR: \d+:(\d+):` anchored at the head of the
list: the literal tag, a maximal nonempty digit run, a colon, a maximal
nonempty digit run (the captured line), and a colon.  Returns the captured
line's value and the remainder after the match.  Greedy `\d+` against the
disjoint delimiter `:` is exactly a maximal digit run. -/
def matchErr (l : List Char) : Option (Nat × List Char) :=
  if errTag.isPrefixOf l then
    if ((l.drop errTag.length).takeWhile Char.isDigit).isEmpty then none
    else
      (afterColon ((l.drop errTag.length).dropWhile Char.isDigit)).bind fun r3 =>
        if (r3.takeWhile Char.isDigit).isEmpty then none
        else
          (afterColon (r3.dropWhile Char.isDigit)).bind fun r5 =>
            some (valDigits (r3.takeWhile Char.isDigit), r5)
  else none

/-- Fuelled scanner implementing the global, left-to-right, non-overlapping
replacement of `log.replace(/ERROR: \d+:(\d+):/g, ...)`: at each position,
either a match is rewritten and scanning resumes after it, or one character
is copied through. -/
def scanFuel (offset : Nat) : Nat → List Char → List Char
  | 0, l => l
  | _, [] => []
  | fuel + 1, c :: cs =>
    match matchErr (c :: cs) with
    | some (line, rest) => rewriteTok offset line ++ scanFuel offset fuel rest
    | none => c :: scanFuel offset fuel cs

/-- Character-list form of `parseErrorLog` (src/types.ts lines 233-239). -/
def scanLog (offset : Nat) (l : List Char) : List Char :=
  scanFuel offset l.length l

/-- Embedding of `parseErrorLog` (src/types.ts lines 233-239). -/
def parseErrorLog (log : String) (offset : Nat) : String :=
  ⟨scanLog offset log.data⟩

/-! ## GPU compiler oracle and the validation effect
(`ShaderMesh` validation `useEffect`, src/types.ts lines 286-346) -/

/-- Shader stage tags. -/
inductive StageTag
  | vertex
  | fragment
  deriving DecidableEq, Repr

/-- Observable calls made against the WebGL compiler during one validation
attempt.  Creation events are recorded when the call returns a live handle
(a `null` return allocates nothing). -/
inductive GLEvent
  | createShader (t : StageTag)
  | sourceShader (t : StageTag)
  | compileShader (t : StageTag)
  | deleteShader (t : StageTag)
  | createProgram
  | attachShader (t : StageTag)
  | linkProgram
  | deleteProgram
  deriving DecidableEq, Repr

/-- Abstract GPU compiler oracle: the outcome of each call the validation
effect can make, per the capability interface the code uses
(`getContext`, `createShader`, `compileShader`/`COMPILE_STATUS`,
`getShaderInfoLog`, `createProgram`, `linkProgram`/`LINK_STATUS`,
`getProgramInfoLog`). -/
structure GLOracle where
  glOk : Bool
  createShaderOk : StageTag → Bool
  compileOk : StageTag → Bool
  shaderLog : StageTag → String
  createProgramOk : Bool
  linkOk : Bool
  programLog : String

/-- Result of the inner `compile` helper (src/types.ts lines 295-306):
the error (if any) and whether a live shader handle is held. -/
structure CompRes where
  error : Option String
  shader : Bool
  deriving DecidableEq, Repr

/-- Embedding of the inner `compile` helper (src/types.ts lines 295-306):
create a shader, feed it the source, compile; on compile failure the
helper deletes its own shader and returns the info log; a `null` handle
from `createShader` returns the fixed message without further calls. -/
def compileStage (o : GLOracle) (t : StageTag) : List GLEvent × CompRes :=
  if o.createShaderOk t then
    if o.compileOk t then
      ([ .createShader t, .sourceShader t, .compileShader t ],
        ⟨none, true⟩)
    else
      ([ .createShader t, .sourceShader t, .compileShader t, .deleteShader t ],
        ⟨some (o.shaderLog t), false⟩)
  else
    ([], ⟨some "Failed to create shader", false⟩)

/-- Outcome of one run of the validation effect: the calls made, the
argument of the `onError` callback if it fired, and whether `onSuccess`
fired (exactly when the safe pair is promoted). -/
structure EffectOut where
  events : List GLEvent
  errorCall : Option String
  successCall : Bool
  deriving DecidableEq, Repr

/-- Embedding of the validation `useEffect` body (src/types.ts lines
286-346).  Note the transcription keeps the source's actual control flow:
BOTH stages are compiled up front (lines 309-310) before any error is
inspected; the three failure returns (vertex, fragment, link) skip the
cleanup block (lines 336-339); when `createProgram` returns `null` the
link block is skipped and the effect proceeds to cleanup and success. -/
def validateEffect (o : GLOracle) : EffectOut :=
  if o.glOk then
    match (compileStage o .vertex).2.error with
    | some e =>
      ⟨(compileStage o .vertex).1 ++ (compileStage o .fragment).1,
        some ("VERTEX SHADER ERROR:\n" ++ parseErrorLog e vertexOffset), false⟩
    | none =>
      match (compileStage o .fragment).2.error with
      | some e =>
        ⟨(compileStage o .vertex).1 ++ (compileStage o .fragment).1,
          some ("FRAGMENT SHADER ERROR:\n" ++ parseErrorLog e fragmentOffset), false⟩
      | none =>
        if o.createProgramOk then
          if o.linkOk then
            ⟨(compileStage o .vertex).1 ++ (compileStage o .fragment).1
                ++ [ .createProgram, .attachShader .vertex,
                  .attachShader .fragment, .linkProgram,
                  .deleteShader .vertex, .deleteShader .fragment,
                  .deleteProgram ],
              none, true⟩
          else
            ⟨(compileStage o .vertex).1 ++ (compileStage o .fragment).1
                ++ [ .createProgram, .attachShader .vertex,
                  .attachShader .fragment, .linkProgram ],
              some ("LINKER ERROR (Varying Mismatch?):\n" ++ o.programLog),
              false⟩
        else
          ⟨(compileStage o .vertex).1 ++ (compileStage o .fragment).1
              ++ [ .deleteShader .vertex, .deleteShader .fragment ],
            none, true⟩
  else ⟨[], none, false⟩

/-! ## Validation resources (for leak accounting) -/

/-- GPU-side resources a validation attempt can hold: one shader handle
per stage and one program handle. -/
inductive GLRes
  | shader (t : StageTag)
  | program
  deriving DecidableEq, Repr

/-- Resource allocated by an event, if any. -/
def allocOf : GLEvent → Option GLRes
  | .createShader t => some (.shader t)
  | .createProgram => some .program
  | _ => none

/-- Resource destroyed by an event, if any. -/
def freeOf : GLEvent → Option GLRes
  | .deleteShader t => some (.shader t)
  | .deleteProgram => some .program
  | _ => none

/-- Resources allocated during an attempt. -/
def allocatedRes (evs : List GLEvent) : List GLRes := evs.filterMap allocOf

/-- Resources destroyed during an attempt. -/
def freedRes (evs : List GLEvent) : List GLRes := evs.filterMap freeOf

/-- Every allocated resource was destroyed before the attempt returned. -/
def releasedAll (evs : List GLEvent) : Bool :=
  (allocatedRes evs).all (fun r => (freedRes evs).contains r)

/-! ## Uniform data model (src/types.ts lines 1-29 and the `ShaderMesh`
reconciliation/useFrame effects, lines 349-468) -/

/-- Embedding of the `UniformType` enum (src/types.ts lines 1-9). -/
inductive UniformType
  | float
  | vec2
  | vec3
  | vec4
  | mat3
  | mat4
  | sampler2D
  deriving DecidableEq, Repr

/-- Embedding of `TextureWrapMode` / the three.js wrapping constants the
code maps it to (src/types.ts line 11 and lines 241-248). -/
inductive WrapMode
  | repeatWrapping
  | clampToEdge
  | mirroredRepeat
  deriving DecidableEq, Repr

/-- Embedding of the `binding` field values `'TIME' | 'MOUSE'`. -/
inductive BindKind
  | time
  | mouse
  deriving DecidableEq, Repr

/-- Raw JS value of a `CustomUniform` (`number | number[] | string`). -/
inductive JSVal
  | num (x : ℚ)
  | arr (xs : List ℚ)
  | str (s : String)
  deriving DecidableEq, Repr

/-- Embedding of the `CustomUniform` interface (src/types.ts lines 13-22).
The `min`/`max` fields are UI slider bounds never read by the render core
and are omitted. -/
structure CustomUniform where
  id : String
  name : String
  type : UniformType
  value : JSVal
  binding : Option BindKind
  wrap : Option WrapMode
  deriving DecidableEq, Repr

/-- Converted GPU-side uniform storage values.  `tex` carries the source
URL and the texture object's wrap modes; `vecList`/`numList` are the
fixed-size light arrays; `arr`/`str` are raw passthrough values (the code
assigns the unconverted JS value when the type tag and value shape do not
match any conversion branch). -/
inductive GVal
  | num (x : ℚ)
  | v2 (x y : ℚ)
  | v3 (x y z : ℚ)
  | v4 (x y z w : ℚ)
  | m3 (xs : List ℚ)
  | m4 (xs : List ℚ)
  | tex (url : String) (wrapS wrapT : WrapMode)
  | arr (xs : List ℚ)
  | str (s : String)
  | vecList (vs : List (ℚ × ℚ × ℚ))
  | numList (xs : List ℚ)
  deriving DecidableEq, Repr

/-- Embedding of `getWrapMode` (src/types.ts lines 241-248): `CLAMP` and
`MIRROR` map to the matching three.js modes, `REPEAT` and `undefined` fall
through to repeat wrapping. -/
def getWrapMode : Option WrapMode → WrapMode
  | some .clampToEdge => .clampToEdge
  | some .mirroredRepeat => .mirroredRepeat
  | _ => .repeatWrapping

/-- Embedding of the `initialValue` conversion at the top of the
reconciliation effect (src/types.ts lines 368-388): vectors are built from
the first components of the array (a missing component is the three.js
constructor default 0), matrices copy the array, a sampler with a string
value starts an asynchronous texture load (the returned texture object has
the three.js default clamp-to-edge wrapping until the wrap block runs),
and every other combination passes the raw value through. -/
def convertValue (cu : CustomUniform) : GVal :=
  match cu.type, cu.value with
  | .vec3, .arr xs => .v3 (xs.getD 0 0) (xs.getD 1 0) (xs.getD 2 0)
  | .vec2, .arr xs => .v2 (xs.getD 0 0) (xs.getD 1 0)
  | .vec4, .arr xs => .v4 (xs.getD 0 0) (xs.getD 1 0) (xs.getD 2 0) (xs.getD 3 0)
  | .mat3, .arr xs => .m3 xs
  | .mat4, .arr xs => .m4 xs
  | .sampler2D, .str s => .tex s .clampToEdge .clampToEdge
  | _, .num x => .num x
  | _, .arr xs => .arr xs
  | _, .str s => .str s

/-- The live uniform table (`materialRef.current.uniforms`): a JS object
keyed by uniform name, modelled as an association list with unique keys. -/
abbrev Table := List (String × GVal)

/-- Property read `uniforms[name]`. -/
def lookupTbl (tbl : Table) (nm : String) : Option GVal :=
  match tbl.find? (fun e => e.1 == nm) with
  | some e => some e.2
  | none => none

/-- Property write `uniforms[name].value = v` on an existing entry (the
code only assigns through an entry it has just found or created; a write
to an absent key is modelled as a no-op). -/
def setEntry (tbl : Table) (nm : String) (v : GVal) : Table :=
  tbl.map (fun e => if e.1 == nm then (e.1, v) else e)

/-- Component-wise write `value.x = nx; value.y = ny` used for the mouse
uniform: on a vector it replaces the first two components and keeps the
rest; on a non-vector JS value the property store would throw and is never
reached from the component's states, modelled as the identity. -/
def mutXYVal (v : GVal) (nx ny : ℚ) : GVal :=
  match v with
  | .v2 _ _ => .v2 nx ny
  | .v3 _ _ z => .v3 nx ny z
  | .v4 _ _ z w => .v4 nx ny z w
  | other => other

/-- Update-or-create part of one reconciliation step (src/types.ts lines
390-406): if an entry named `cu.name` exists, overwrite its value unless a
binding is set; otherwise create the entry with the converted value. -/
def reconcileBase (tbl : Table) (cu : CustomUniform) : Table :=
  match lookupTbl tbl cu.name with
  | some _ =>
    if cu.binding.isNone then setEntry tbl cu.name (convertValue cu) else tbl
  | none => tbl ++ [ (cu.name, convertValue cu) ]

/-- Texture-wrap part of one reconciliation step (src/types.ts lines
408-420): for a sampler declaration whose stored value is a texture, align
the texture's wrap modes with the declaration's wrap mode when they
differ. -/
def applyWrapFix (tbl : Table) (cu : CustomUniform) : Table :=
  if cu.type = .sampler2D then
    match lookupTbl tbl cu.name with
    | some (.tex url ws wt) =>
      if ws ≠ getWrapMode cu.wrap ∨ wt ≠ getWrapMode cu.wrap then
        setEntry tbl cu.name (.tex url (getWrapMode cu.wrap) (getWrapMode cu.wrap))
      else tbl
    | _ => tbl
  else tbl

/-- One step of the reconciliation `forEach` (src/types.ts lines 367-421). -/
def reconcileOne (tbl : Table) (cu : CustomUniform) : Table :=
  applyWrapFix (reconcileBase tbl cu) cu

/-- The custom-uniform half of the reconciliation effect
(src/types.ts lines 367-421), in declaration-list order. -/
def reconcileUniforms (cus : List CustomUniform) (tbl : Table) : Table :=
  cus.foldl reconcileOne tbl

/-- Embedding of the `Light` interface (src/types.ts lines 24-29); the CSS
color string is kept abstract and converted by a parameter of the sync. -/
structure Light where
  id : String
  position : ℚ × ℚ × ℚ
  color : String
  intensity : ℚ
  deriving DecidableEq, Repr

/-- The three fixed-size light arrays (`u_lightPos`, `u_lightColor`,
`u_lightIntensity` values). -/
structure LightSlots where
  pos : List (ℚ × ℚ × ℚ)
  col : List (ℚ × ℚ × ℚ)
  inten : List ℚ
  deriving DecidableEq, Repr

/-- The `lights.slice(0, 4).forEach((light, i) => ...)` body (src/types.ts
lines 431-436): write position, converted color, and intensity of each
light into slot `i`. -/
def fillSlots (conv : String → ℚ × ℚ × ℚ) : Nat → List Light → LightSlots → LightSlots
  | _, [], s => s
  | i, l :: ls, s =>
    fillSlots conv (i + 1) ls
      ⟨s.pos.set i l.position, s.col.set i (conv l.color), s.inten.set i l.intensity⟩

/-- The reset loop `for(let i=0; i<4; i++) lightIntensities[i] = 0`
(src/types.ts line 429). -/
def resetIntensities (s : LightSlots) : LightSlots :=
  ⟨s.pos, s.col, (((s.inten.set 0 0).set 1 0).set 2 0).set 3 0⟩

/-- The light-sync pass on the three slot arrays (src/types.ts lines
423-436): zero all four intensities, then fill slots from the first four
lights in list order. -/
def lightSlots (conv : String → ℚ × ℚ × ℚ) (lights : List Light)
    (s : LightSlots) : LightSlots :=
  fillSlots conv 0 (lights.take 4) (resetIntensities s)

/-- Names of the three light-array uniforms. -/
def lightSlotNames : List String :=
  [ "u_lightPos", "u_lightColor", "u_lightIntensity" ]

/-- The light-sync pass acting on the uniform table: the code reads the
three arrays out of the table and mutates them in place; a table whose
light entries do not hold the array shapes would throw in JS and is
unreachable from the component's initial table, modelled as a no-op. -/
def syncLights (conv : String → ℚ × ℚ × ℚ) (lights : List Light)
    (tbl : Table) : Table :=
  match lookupTbl tbl "u_lightPos", lookupTbl tbl "u_lightColor",
      lookupTbl tbl "u_lightIntensity" with
  | some (.vecList ps), some (.vecList cs), some (.numList ts) =>
    setEntry
      (setEntry
        (setEntry tbl "u_lightPos"
          (.vecList (lightSlots conv lights ⟨ps, cs, ts⟩).pos))
        "u_lightColor" (.vecList (lightSlots conv lights ⟨ps, cs, ts⟩).col))
      "u_lightIntensity" (.numList (lightSlots conv lights ⟨ps, cs, ts⟩).inten)
  | _, _, _ => tbl

/-- The whole reconciliation effect (src/types.ts lines 363-440): custom
uniform sync followed by light sync. -/
def editStep (conv : String → ℚ × ℚ × ℚ) (cus : List CustomUniform)
    (lights : List Light) (tbl : Table) : Table :=
  syncLights conv lights (reconcileUniforms cus tbl)

/-- Per-frame inputs supplied by the host render engine's frame callback
(`state.clock`, `state.pointer`, `state.size`, `state.viewport.dpr`,
`state.camera.position`). -/
structure FrameState where
  elapsedTime : ℚ
  pointerX : ℚ
  pointerY : ℚ
  width : ℚ
  height : ℚ
  dpr : ℚ
  camX : ℚ
  camY : ℚ
  camZ : ℚ
  deriving DecidableEq, Repr

/-- Normalized-device-coordinate y value of the viewport's TOP edge in the
host engine's pointer convention: react-three-fiber sets
`pointer.y = -(offsetY / height) * 2 + 1`, so `offsetY = 0` (top edge)
gives `pointer.y = +1`. -/
def ndcTopEdgeY : ℚ := 1

/-- One step of the per-frame binding loop (src/types.ts lines 456-466):
a declaration with no binding is skipped; a missing table entry is
skipped; `TIME` stores the elapsed time as the value, `MOUSE` stores the
normalized pointer into the value's x/y components. -/
def bindOne (fr : FrameState) (tbl : Table) (cu : CustomUniform) : Table :=
  match cu.binding with
  | none => tbl
  | some .time =>
    match lookupTbl tbl cu.name with
    | none => tbl
    | some _ => setEntry tbl cu.name (.num fr.elapsedTime)
  | some .mouse =>
    match lookupTbl tbl cu.name with
    | none => tbl
    | some v =>
      setEntry tbl cu.name
        (mutXYVal v ((fr.pointerX + 1) / 2) ((fr.pointerY + 1) / 2))

/-- Write of the mouse components into a table entry. -/
def writeMouse (fr : FrameState) (tbl : Table) (nm : String) : Table :=
  match lookupTbl tbl nm with
  | some v =>
    setEntry tbl nm (mutXYVal v ((fr.pointerX + 1) / 2) ((fr.pointerY + 1) / 2))
  | none => tbl

/-- Built-in uniform writes at the top of the `useFrame` body
(src/types.ts lines 445-453): `u_time`, `u_mouse` (component-wise),
`u_resolution` (device pixels: css size times device pixel ratio) and
`u_cameraPosition`, in source order. -/
def framePre (fr : FrameState) (tbl : Table) : Table :=
  setEntry
    (setEntry (writeMouse fr (setEntry tbl "u_time" (.num fr.elapsedTime)) "u_mouse")
      "u_resolution" (.v2 (fr.width * fr.dpr) (fr.height * fr.dpr)))
    "u_cameraPosition" (.v3 fr.camX fr.camY fr.camZ)

/-- The `useFrame` body (src/types.ts lines 443-468): write the four
built-in uniforms, then run the binding loop over the declarations. -/
def frameStep (cus : List CustomUniform) (fr : FrameState) (tbl : Table) : Table :=
  cus.foldl (bindOne fr) (framePre fr tbl)

/-- Zero vector for the initial light arrays. -/
def zero3 : ℚ × ℚ × ℚ := (0, 0, 0)

/-- Embedding of the `uniforms` `useMemo` initial object (src/types.ts
lines 349-360).  The memo has an EMPTY dependency array: this object is
created once per component lifetime and reused, by reference, by every
material the component ever constructs. -/
def initUniforms : Table :=
  [ ("u_time", .num 0),
    ("u_resolution", .v2 0 0),
    ("u_mouse", .v2 0 0),
    ("u_cameraPosition", .v3 0 0 0),
    ("u_lightPos", .vecList [ zero3, zero3, zero3, zero3 ]),
    ("u_lightColor", .vecList [ zero3, zero3, zero3, zero3 ]),
    ("u_lightIntensity", .numList [ 0, 0, 0, 0 ]) ]

/-- Persistent state of the `ShaderMesh` component: the safe shader pair
(lines 282-283) and the memoized uniform table (lines 349-360). -/
structure MeshState where
  safeVertex : String
  safeFragment : String
  table : Table
  deriving DecidableEq, Repr

/-- Effect of one commit of a draft pair on the component state: the
validation effect runs; only on its success path are `setSafeVertex` and
`setSafeFragment` called (lines 343-344), replacing the pair as a whole;
the memoized uniform table is not touched by the validation effect. -/
def commitStep (o : GLOracle) (draftVertex draftFragment : String)
    (st : MeshState) : MeshState :=
  if (validateEffect o).successCall then
    { st with safeVertex := draftVertex, safeFragment := draftFragment }
  else st

/-- Names of the four per-frame built-in uniforms. -/
def builtinNames : List String :=
  [ "u_time", "u_mouse", "u_resolution", "u_cameraPosition" ]

/-- Value held by a freshly created entry after the whole reconciliation
step for its declaration (conversion plus the sampler wrap-mode block). -/
def reconciledValue (cu : CustomUniform) : GVal :=
  match cu.type, convertValue cu with
  | .sampler2D, .tex url _ _ =>
    .tex url (getWrapMode cu.wrap) (getWrapMode cu.wrap)
  | _, v => v

/-- Formalization of claim C5 as stated, parameterized by the new
program's declared uniform interface: whenever a commit changes the active
pair, every table entry keyed by a name absent from the interface has been
cleared. -/
def tableClearedOnSwap (iface : List String) : Prop :=
  ∀ (o : GLOracle) (dV dF : String) (st : MeshState) (nm : String),
    (commitStep o dV dF st).safeVertex ≠ st.safeVertex → nm ∉ iface →
      lookupTbl (commitStep o dV dF st).table nm = none

/-! ## Light-list UI operations (`Controls`, src/types.ts lines 668-693) -/

/-- The new light object built by `addLight` (src/types.ts lines 670-675);
the random id is a parameter. -/
def newLight (id : String) : Light :=
  ⟨id, (2, 2, 2), "#ffffff", 1⟩

/-- Embedding of `addLight` (src/types.ts lines 668-677): a no-op when the
list already has 4 or more lights, otherwise appends one light. -/
def addLight (id : String) (lights : List Light) : List Light :=
  if lights.length ≥ 4 then lights else lights ++ [ newLight id ]

/-- Embedding of `removeLight` (src/types.ts lines 679-681). -/
def removeLight (id : String) (lights : List Light) : List Light :=
  lights.filter (fun l => l.id != id)

/-- A single-field update, as `updateLight`'s computed-key record update
performs it. -/
inductive LightField
  | positionF (p : ℚ × ℚ × ℚ)
  | colorF (c : String)
  | intensityF (x : ℚ)
  deriving DecidableEq, Repr

/-- Apply a single-field update to a light. -/
def setField (f : LightField) (l : Light) : Light :=
  match f with
  | .positionF p => { l with position := p }
  | .colorF c => { l with color := c }
  | .intensityF x => { l with intensity := x }

/-- Embedding of `updateLight` (src/types.ts lines 683-685). -/
def updateLight (id : String) (f : LightField) (lights : List Light) : List Light :=
  lights.map (fun l => if l.id == id then setField f l else l)

/-- The UI operations that can mutate the light list. -/
inductive LightOp
  | add (id : String)
  | remove (id : String)
  | update (id : String) (f : LightField)

/-- Apply one UI operation to the light list. -/
def applyLightOp (lights : List Light) : LightOp → List Light
  | .add id => addLight id lights
  | .remove id => removeLight id lights
  | .update id f => updateLight id f lights

/-! ## Sample oracles and states for concrete runs -/

/-- Oracle on which every call succeeds. -/
def oracleAllOk : GLOracle :=
  ⟨true, fun _ => true, fun _ => true, fun _ => "", true, true, ""⟩

/-- Oracle on which the vertex stage fails to compile and everything else
succeeds. -/
def oracleVertexFail : GLOracle :=
  ⟨true, fun _ => true,
    fun t => match t with | .vertex => false | .fragment => true,
    fun _ => "ERROR: 0:20: bad", true, true, ""⟩

/-- Oracle on which the fragment stage fails to compile and everything
else succeeds. -/
def oracleFragmentFail : GLOracle :=
  ⟨true, fun _ => true,
    fun t => match t with | .vertex => true | .fragment => false,
    fun _ => "ERROR: 0:9: bad", true, true, ""⟩

/-- Oracle on which both stages compile but the link step fails. -/
def oracleLinkFail : GLOracle :=
  ⟨true, fun _ => true, fun _ => true, fun _ => "", true, false,
    "varying vUv not written"⟩

/-- A component state with an extra user-created table entry `u_old`. -/
def sampleState : MeshState :=
  ⟨"v1", "f1", initUniforms ++ [ ("u_old", .num 1) ]⟩

/-- A concrete frame with the pointer on the top edge of the viewport. -/
def frTop : FrameState :=
  ⟨5, 0, ndcTopEdgeY, 800, 600, 2, 1, 2, 3⟩

/-- A concrete time-bound float declaration with a manually set value. -/
def cuTime : CustomUniform :=
  ⟨"id1", "u_speed", .float, .num 3, some .time, none⟩

/-- The same declaration with the binding removed. -/
def cuTimeUnbound : CustomUniform :=
  ⟨"id1", "u_speed", .float, .num 3, none, none⟩

/-- A declaration whose name no shader declares. -/
def cuOrphan : CustomUniform :=
  ⟨"id2", "u_missing", .vec2, .arr [ 1, 2 ], none, none⟩

/-- A table holding the memoized built-ins plus a `u_speed` entry. -/
def tblSpeed : Table := initUniforms ++ [ ("u_speed", .num 7) ]

/-- Trivial color conversion used in concrete runs. -/
def convWhite : String → ℚ × ℚ × ℚ := fun _ => (1, 1, 1)

/-- Two concrete lights. -/
def lightsTwo : List Light :=
  [ ⟨"l1", (1, 2, 3), "#ff0000", 2⟩, ⟨"l2", (4, 5, 6), "#00ff00", 3⟩ ]

/-- Fresh slot arrays of length four. -/
def slots0 : LightSlots :=
  ⟨[ zero3, zero3, zero3, zero3 ], [ zero3, zero3, zero3, zero3 ], [ 9, 9, 9, 9 ]⟩

/-! ## Lemmas -/

/-- Accumulator form of `valDigits`. -/
def valFrom (a : Nat) (l : List Char) : Nat :=
  l.foldl (fun b c => 10 * b + (c.toNat - 48)) a

theorem valFrom_nil (a : Nat) : valFrom a [] = a := rfl

theorem valFrom_cons (a : Nat) (c : Char) (l : List Char) :
    valFrom a (c :: l) = valFrom (10 * a + (c.toNat - 48)) l := rfl

theorem valDigits_eq_valFrom (l : List Char) : valDigits l = valFrom 0 l := rfl

theorem digitChar_val (m : Nat) (h : m < 10) : (digitChar m).toNat - 48 = m := by
  interval_cases m <;> decide

theorem valFrom_natDigitsAux :
    ∀ (fuel n : Nat) (acc : List Char) (a : Nat), n < fuel →
      ∃ e, valFrom a (natDigitsAux fuel n acc) = valFrom (a * 10 ^ e + n) acc
  | 0, n, _, _, h => absurd h (by omega)
  | fuel + 1, n, acc, a, h => by
    by_cases h10 : n < 10
    · refine ⟨1, ?_⟩
      simp only [natDigitsAux, if_pos h10, valFrom_cons, digitChar_val n h10]
      ring_nf
    · have hrec : n / 10 < fuel := by omega
      obtain ⟨e, he⟩ := valFrom_natDigitsAux fuel (n / 10) (digitChar (n % 10) :: acc) a hrec
      refine ⟨e + 1, ?_⟩
      simp only [natDigitsAux, if_neg h10]
      rw [he, valFrom_cons, digitChar_val (n % 10) (Nat.mod_lt n (by omega))]
      congr 1
      have hdm : 10 * (n / 10) + n % 10 = n := Nat.div_add_mod n 10
      rw [pow_succ]
      ring_nf
      omega

theorem valDigits_natToDigits (n : Nat) : valDigits (natToDigits n) = n := by
  obtain ⟨e, he⟩ := valFrom_natDigitsAux (n + 1) n [] 0 (by omega)
  simp only [natToDigits, valDigits_eq_valFrom, he, valFrom_nil]
  omega

theorem digitChar_isDigit (m : Nat) (h : m < 10) : (digitChar m).isDigit = true := by
  interval_cases m <;> decide

theorem natToDigits_isDigit (n : Nat) : ∀ c ∈ natToDigits n, c.isDigit = true := by
  have key : ∀ (fuel m : Nat) (acc : List Char), m < fuel →
      (∀ c ∈ acc, c.isDigit = true) →
      ∀ c ∈ natDigitsAux fuel m acc, c.isDigit = true := by
    intro fuel
    induction fuel with
    | zero => intro m acc h; omega
    | succ k ih =>
      intro m acc h hacc c hc
      by_cases h10 : m < 10
      · simp only [natDigitsAux, if_pos h10] at hc
        rcases List.mem_cons.mp hc with hc | hc
        · subst hc; exact digitChar_isDigit m h10
        · exact hacc c hc
      · simp only [natDigitsAux, if_neg h10] at hc
        refine ih (m / 10) (digitChar (m % 10) :: acc) (by omega) ?_ c hc
        intro d hd
        rcases List.mem_cons.mp hd with hd | hd
        · subst hd; exact digitChar_isDigit (m % 10) (Nat.mod_lt m (by omega))
        · exact hacc d hd
  exact key (n + 1) n [] (by omega) (by simp)

theorem natToDigits_ne_nil (n : Nat) : natToDigits n ≠ [] := by
  have key : ∀ (fuel m : Nat) (acc : List Char), m < fuel →
      natDigitsAux fuel m acc ≠ [] := by
    intro fuel
    induction fuel with
    | zero => intro m acc h; omega
    | succ k ih =>
      intro m acc h
      by_cases h10 : m < 10
      · simp [natDigitsAux, if_pos h10]
      · simp only [natDigitsAux, if_neg h10]
        exact ih (m / 10) _ (by omega)
  exact key (n + 1) n [] (by omega)

theorem takeWhile_append_head_false {p : Char → Bool} {ds : List Char}
    (x : Char) (rest : List Char)
    (hds : ∀ c ∈ ds, p c = true) (hx : p x = false) :
    (ds ++ x :: rest).takeWhile p = ds ∧ (ds ++ x :: rest).dropWhile p = x :: rest := by
  induction ds with
  | nil => simp [List.takeWhile_cons, List.dropWhile_cons, hx]
  | cons d ds ih =>
    have hd : p d = true := hds d (by simp)
    have hrest := ih (fun c hc => hds c (by simp [hc]))
    simp [List.takeWhile_cons, List.dropWhile_cons, hd, hrest.1, hrest.2]

theorem afterColon_colon (r : List Char) : afterColon (':' :: r) = some r := by
  simp [afterColon]

theorem afterColon_some {x r : List Char} (h : afterColon x = some r) :
    x = ':' :: r := by
  rcases x with _ | ⟨c, x⟩
  · simp [afterColon] at h
  · by_cases hc : c = ':'
    · subst hc
      rw [afterColon_colon] at h
      rw [Option.some.inj h]
    · simp [afterColon, hc] at h

theorem matchErr_occ {ds1 ds2 : List Char} (post : List Char)
    (h1 : ds1 ≠ []) (hd1 : ∀ c ∈ ds1, c.isDigit = true)
    (h2 : ds2 ≠ []) (hd2 : ∀ c ∈ ds2, c.isDigit = true) :
    matchErr (errTag ++ ds1 ++ ':' :: (ds2 ++ ':' :: post)) = some (valDigits ds2, post) := by
  have hcolon : Char.isDigit ':' = false := by decide
  have hpre : errTag.isPrefixOf (errTag ++ (ds1 ++ ':' :: (ds2 ++ ':' :: post))) = true := by
    rw [List.isPrefixOf_iff_prefix]
    exact List.prefix_append _ _
  have hdrop : (errTag ++ (ds1 ++ ':' :: (ds2 ++ ':' :: post))).drop errTag.length
      = ds1 ++ ':' :: (ds2 ++ ':' :: post) := List.drop_left _ _
  have hsplit1 := takeWhile_append_head_false (p := Char.isDigit)
    ':' (ds2 ++ ':' :: post) hd1 hcolon
  have hsplit2 := takeWhile_append_head_false (p := Char.isDigit)
    ':' post hd2 hcolon
  have hne1 : ds1.isEmpty = false := by
    rcases ds1 with _ | _
    · exact absurd rfl h1
    · rfl
  have hne2 : ds2.isEmpty = false := by
    rcases ds2 with _ | _
    · exact absurd rfl h2
    · rfl
  rw [List.append_assoc]
  unfold matchErr
  rw [if_pos hpre, hdrop, hsplit1.1, hsplit1.2, hne1, afterColon_colon]
  simp only [Bool.false_eq_true, if_false, Option.some_bind]
  rw [hsplit2.1, hsplit2.2, hne2, afterColon_colon]
  simp only [Bool.false_eq_true, if_false, Option.some_bind]

theorem matchErr_none_of_ne_E {c : Char} (cs : List Char) (h : c ≠ 'E') :
    matchErr (c :: cs) = none := by
  have hpre : errTag.isPrefixOf (c :: cs) = false := by
    simp only [errTag, List.isPrefixOf, Bool.and_eq_false_iff]
    left
    simpa using fun h' => h h'.symm
  unfold matchErr
  rw [hpre]
  rfl

theorem matchErr_length {l rest : List Char} {n : Nat}
    (h : matchErr l = some (n, rest)) : rest.length < l.length := by
  unfold matchErr at h
  split at h
  case isFalse => exact absurd h (by simp)
  case isTrue hpre =>
    rw [List.isPrefixOf_iff_prefix] at hpre
    obtain ⟨t, ht⟩ := hpre
    have hdrop : l.drop errTag.length = t := by
      rw [← ht]; exact List.drop_left _ _
    have hlen : l.length = errTag.length + t.length := by
      rw [← ht]; simp
    rw [hdrop] at h
    have hpart1 : t.takeWhile Char.isDigit ++ t.dropWhile Char.isDigit = t :=
      List.takeWhile_append_dropWhile (p := Char.isDigit) (l := t)
    split at h
    case isTrue => exact absurd h (by simp)
    case isFalse hne1 =>
      rcases hac1 : afterColon (t.dropWhile Char.isDigit) with _ | r3
      · rw [hac1] at h; simp at h
      · rw [hac1, Option.some_bind] at h
        have hdrop1 : t.dropWhile Char.isDigit = ':' :: r3 := afterColon_some hac1
        have hpart2 : r3.takeWhile Char.isDigit ++ r3.dropWhile Char.isDigit = r3 :=
          List.takeWhile_append_dropWhile (p := Char.isDigit) (l := r3)
        split at h
        case isTrue => exact absurd h (by simp)
        case isFalse hne2 =>
          rcases hac2 : afterColon (r3.dropWhile Char.isDigit) with _ | r5
          · rw [hac2] at h; simp at h
          · rw [hac2, Option.some_bind] at h
            have hdrop2 : r3.dropWhile Char.isDigit = ':' :: r5 := afterColon_some hac2
            have hrest : r5 = rest := congrArg Prod.snd (Option.some.inj h)
            subst hrest
            have ht1 : 1 ≤ (t.takeWhile Char.isDigit).length := by
              rcases hx : t.takeWhile Char.isDigit with _ | _
              · rw [hx] at hne1; simp at hne1
              · simp
            have ht2 : 1 ≤ (r3.takeWhile Char.isDigit).length := by
              rcases hx : r3.takeWhile Char.isDigit with _ | _
              · rw [hx] at hne2; simp at hne2
              · simp
            have hl1 := congrArg List.length hpart1
            have hl2 := congrArg List.length hpart2
            rw [List.length_append, hdrop1] at hl1
            rw [List.length_append, hdrop2] at hl2
            simp only [List.length_cons] at hl1 hl2
            have htag : errTag.length = 7 := rfl
            omega

theorem scanFuel_nil (off f : Nat) : scanFuel off f [] = [] := by
  cases f <;> rfl

theorem scanFuel_cons_some {c : Char} {cs rest : List Char} {n : Nat} (off f : Nat)
    (h : matchErr (c :: cs) = some (n, rest)) :
    scanFuel off (f + 1) (c :: cs) = rewriteTok off n ++ scanFuel off f rest := by
  simp [scanFuel, h]

theorem scanFuel_cons_none {c : Char} {cs : List Char} (off f : Nat)
    (h : matchErr (c :: cs) = none) :
    scanFuel off (f + 1) (c :: cs) = c :: scanFuel off f cs := by
  simp [scanFuel, h]

theorem scanFuel_congr (off : Nat) :
    ∀ (f₁ : Nat) (l : List Char) (f₂ : Nat), l.length ≤ f₁ → l.length ≤ f₂ →
      scanFuel off f₁ l = scanFuel off f₂ l
  | 0, l, f₂, h₁, _ => by
    have : l = [] := List.length_eq_zero.mp (by omega)
    subst this
    rw [scanFuel_nil, scanFuel_nil]
  | k + 1, l, f₂, h₁, h₂ => by
    rcases l with _ | ⟨c, cs⟩
    · rw [scanFuel_nil, scanFuel_nil]
    · rcases f₂ with _ | m
      · simp at h₂
      · rcases hm : matchErr (c :: cs) with _ | ⟨n, rest⟩
        · simp only [List.length_cons] at h₁ h₂
          rw [scanFuel_cons_none off k hm, scanFuel_cons_none off m hm,
            scanFuel_congr off k cs m (by omega) (by omega)]
        · have hlt := matchErr_length hm
          simp only [List.length_cons] at h₁ h₂ hlt
          rw [scanFuel_cons_some off k hm, scanFuel_cons_some off m hm,
            scanFuel_congr off k rest m (by omega) (by omega)]

theorem scanLog_nil (off : Nat) : scanLog off [] = [] := rfl

theorem scanLog_cons_some {c : Char} {cs rest : List Char} {n : Nat} (off : Nat)
    (h : matchErr (c :: cs) = some (n, rest)) :
    scanLog off (c :: cs) = rewriteTok off n ++ scanLog off rest := by
  have hlt := matchErr_length h
  simp only [List.length_cons] at hlt
  show scanFuel off (cs.length + 1) (c :: cs) = _
  rw [scanFuel_cons_some off cs.length h]
  congr 1
  exact scanFuel_congr off cs.length rest rest.length (by omega) (le_refl _)

theorem scanLog_cons_none {c : Char} {cs : List Char} (off : Nat)
    (h : matchErr (c :: cs) = none) :
    scanLog off (c :: cs) = c :: scanLog off cs := by
  show scanFuel off (cs.length + 1) (c :: cs) = _
  rw [scanFuel_cons_none off cs.length h]
  rfl

theorem scanLog_append_of_no_E (off : Nat) {pre : List Char} (l : List Char)
    (h : ∀ c ∈ pre, c ≠ 'E') :
    scanLog off (pre ++ l) = pre ++ scanLog off l := by
  induction pre with
  | nil => simp
  | cons c cs ih =>
    have hc : c ≠ 'E' := h c (by simp)
    have hnone := matchErr_none_of_ne_E (cs ++ l) hc
    rw [List.cons_append, scanLog_cons_none off hnone,
      ih (fun d hd => h d (by simp [hd])), List.cons_append]

theorem scanLog_occ (off : Nat) {ds1 ds2 : List Char} (post : List Char)
    (h1 : ds1 ≠ []) (hd1 : ∀ c ∈ ds1, c.isDigit = true)
    (h2 : ds2 ≠ []) (hd2 : ∀ c ∈ ds2, c.isDigit = true) :
    scanLog off (errTag ++ ds1 ++ ':' :: (ds2 ++ ':' :: post))
      = rewriteTok off (valDigits ds2) ++ scanLog off post := by
  have hm := matchErr_occ post h1 hd1 h2 hd2
  rw [List.append_assoc] at hm ⊢
  exact scanLog_cons_some off hm

theorem scanLog_fixpoint (off : Nat) {l : List Char}
    (h : ∀ i, matchErr (l.drop i) = none) : scanLog off l = l := by
  induction l with
  | nil => rfl
  | cons c cs ih =>
    have h0 : matchErr (c :: cs) = none := h 0
    rw [scanLog_cons_none off h0, ih (fun i => h (i + 1))]

theorem scanLog_append_of_no_match (off : Nat) (pre : List Char) :
    ∀ (l : List Char), (∀ i, i < pre.length → matchErr ((pre ++ l).drop i) = none) →
      scanLog off (pre ++ l) = pre ++ scanLog off l := by
  induction pre with
  | nil => intro l _; simp
  | cons c cs ih =>
    intro l h
    have h0 : matchErr (c :: (cs ++ l)) = none := by
      have h' := h 0 (by simp)
      simpa using h'
    have hrec := ih l (fun i hi => by
      have h' := h (i + 1) (by simp only [List.length_cons]; omega)
      simpa using h')
    rw [List.cons_append, scanLog_cons_none off h0, hrec, List.cons_append]

theorem fixLine_shift (off k : Nat) (hk : 1 ≤ k) : fixLine off (off + k) = k := by
  simp only [fixLine, Nat.add_sub_cancel_left]
  omega

theorem fixLine_clamp (off n : Nat) (hn : n ≤ off) : fixLine off n = 1 := by
  simp only [fixLine]
  omega

/-- C3: `parseErrorLog` rewrites each occurrence of `ERROR: <int>:<line>:`
to `ERROR: line <n>:` with `n = max 1 (line - offset)`, leaving every
character of the log outside matched occurrences unchanged.  The scanner is
fully determined on every log by the head steps: (1) a log with no
occurrence at any position is a fixed point; (2) if a match anchors at the
head it is rewritten in place and scanning resumes after the match; (3) if
no match anchors at the head the character is copied through unchanged;
(4) the matcher accepts the head exactly when it carries the pattern, with
the second digit run captured as the line; (5) an arbitrary unmatched block
(capital `E`s included) in which no match starts is copied through
unchanged; (6) hence an occurrence after any such block — the shape of a
multi-error log — is rewritten in place, with the block kept verbatim and
scanning resuming after the occurrence; (7) a raw line `off + k` (k ≥ 1) is
renumbered to `k`; (8) a raw line at or before `off` is clamped to `1`;
(9) the decimal digits of a number parse back to it, so an error reported
at raw line `off + k` is printed as `line k`; (10) the string-level
function is the character-level scan. -/
theorem c3_parseErrorLog_normalizes :
    (∀ (off : Nat) (l : List Char), (∀ i, matchErr (l.drop i) = none) →
        scanLog off l = l)
    ∧ (∀ (off : Nat) (c : Char) (cs rest : List Char) (n : Nat),
        matchErr (c :: cs) = some (n, rest) →
        scanLog off (c :: cs) = rewriteTok off n ++ scanLog off rest)
    ∧ (∀ (off : Nat) (c : Char) (cs : List Char),
        matchErr (c :: cs) = none →
        scanLog off (c :: cs) = c :: scanLog off cs)
    ∧ (∀ (ds1 ds2 post : List Char),
        ds1 ≠ [] → (∀ c ∈ ds1, c.isDigit = true) →
        ds2 ≠ [] → (∀ c ∈ ds2, c.isDigit = true) →
        matchErr (errTag ++ ds1 ++ ':' :: (ds2 ++ ':' :: post))
          = some (valDigits ds2, post))
    ∧ (∀ (off : Nat) (pre l : List Char),
        (∀ i, i < pre.length → matchErr ((pre ++ l).drop i) = none) →
        scanLog off (pre ++ l) = pre ++ scanLog off l)
    ∧ (∀ (off : Nat) (pre ds1 ds2 post : List Char),
        (∀ i, i < pre.length →
          matchErr ((pre ++ (errTag ++ ds1 ++ ':' :: (ds2 ++ ':' :: post))).drop i)
            = none) →
        ds1 ≠ [] → (∀ c ∈ ds1, c.isDigit = true) →
        ds2 ≠ [] → (∀ c ∈ ds2, c.isDigit = true) →
        scanLog off (pre ++ (errTag ++ ds1 ++ ':' :: (ds2 ++ ':' :: post)))
          = pre ++ (rewriteTok off (valDigits ds2) ++ scanLog off post))
    ∧ (∀ off k : Nat, 1 ≤ k → fixLine off (off + k) = k)
    ∧ (∀ off n : Nat, n ≤ off → fixLine off n = 1)
    ∧ (∀ n : Nat, valDigits (natToDigits n) = n)
    ∧ (∀ (s : String) (off : Nat), parseErrorLog s off = ⟨scanLog off s.data⟩) := by
  refine ⟨fun off l h => scanLog_fixpoint off h,
    fun off c cs rest n h => scanLog_cons_some off h,
    fun off c cs h => scanLog_cons_none off h,
    fun ds1 ds2 post h1 hd1 h2 hd2 => matchErr_occ post h1 hd1 h2 hd2,
    fun off pre l h => scanLog_append_of_no_match off pre l h,
    ?_, fixLine_shift, fixLine_clamp, valDigits_natToDigits, fun _ _ => rfl⟩
  intro off pre ds1 ds2 post hp h1 hd1 h2 hd2
  rw [scanLog_append_of_no_match off pre _ hp, scanLog_occ off post h1 hd1 h2 hd2]

/-- Witness: a multi-error-shaped log block — the unmatched text
`"got EOF\n"` contains a capital E yet no match starts inside it — followed
by `ERROR: 0:20: msg`, with the vertex offset 13: the occurrence is
rewritten to `ERROR: line 7:` and the surrounding text is kept verbatim. -/
theorem c3_witness :
    (∀ i, i < ("got EOF\n").data.length →
        matchErr ((("got EOF\n").data
          ++ (errTag ++ ("0").data ++ ':' :: (("20").data ++ ':' :: (" msg").data))).drop i)
          = none)
    ∧ ("0").data ≠ [] ∧ (∀ c ∈ ("0").data, c.isDigit = true)
    ∧ ("20").data ≠ [] ∧ (∀ c ∈ ("20").data, c.isDigit = true)
    ∧ scanLog 13 (("got EOF\n").data
        ++ (errTag ++ ("0").data ++ ':' :: (("20").data ++ ':' :: (" msg").data)))
      = ("got EOF\n").data
        ++ (rewriteTok 13 (valDigits ("20").data) ++ scanLog 13 (" msg").data) :=
  ⟨by decide, by decide, by decide, by decide, by decide,
    c3_parseErrorLog_normalizes.2.2.2.2.2.1 13 ("got EOF\n").data ("0").data
      ("20").data (" msg").data (by decide) (by decide) (by decide) (by decide)
      (by decide)⟩

/-! ### Evaluation lemmas for the validation effect -/

theorem compileStage_ok {o : GLOracle} {t : StageTag}
    (hc : o.createShaderOk t = true) (hk : o.compileOk t = true) :
    compileStage o t
      = ([ .createShader t, .sourceShader t, .compileShader t ], ⟨none, true⟩) := by
  simp [compileStage, hc, hk]

theorem compileStage_fail {o : GLOracle} {t : StageTag}
    (hc : o.createShaderOk t = true) (hk : o.compileOk t = false) :
    compileStage o t
      = ([ .createShader t, .sourceShader t, .compileShader t, .deleteShader t ],
        ⟨some (o.shaderLog t), false⟩) := by
  simp [compileStage, hc, hk]

theorem compileStage_error_none {o : GLOracle} {t : StageTag}
    (h : (compileStage o t).2.error = none) :
    o.createShaderOk t = true ∧ o.compileOk t = true := by
  cases hc : o.createShaderOk t
  · rw [show compileStage o t = ([], ⟨some "Failed to create shader", false⟩) from
      by simp [compileStage, hc]] at h
    simp at h
  · cases hk : o.compileOk t
    · rw [compileStage_fail hc hk] at h
      simp at h
    · exact ⟨rfl, rfl⟩

theorem validateEffect_noGl {o : GLOracle} (hgl : o.glOk = false) :
    validateEffect o = ⟨[], none, false⟩ := by
  unfold validateEffect
  rw [hgl]
  rfl

theorem validateEffect_vertexError {o : GLOracle} {e : String}
    (hgl : o.glOk = true) (he : (compileStage o .vertex).2.error = some e) :
    validateEffect o
      = ⟨(compileStage o .vertex).1 ++ (compileStage o .fragment).1,
        some ("VERTEX SHADER ERROR:\n" ++ parseErrorLog e vertexOffset), false⟩ := by
  unfold validateEffect
  rw [hgl, he]
  rfl

theorem validateEffect_fragmentError {o : GLOracle} {e : String}
    (hgl : o.glOk = true) (hv : (compileStage o .vertex).2.error = none)
    (he : (compileStage o .fragment).2.error = some e) :
    validateEffect o
      = ⟨(compileStage o .vertex).1 ++ (compileStage o .fragment).1,
        some ("FRAGMENT SHADER ERROR:\n" ++ parseErrorLog e fragmentOffset), false⟩ := by
  unfold validateEffect
  rw [hgl, hv, he]
  rfl

theorem validateEffect_linkError {o : GLOracle}
    (hgl : o.glOk = true) (hv : (compileStage o .vertex).2.error = none)
    (hf : (compileStage o .fragment).2.error = none)
    (hcp : o.createProgramOk = true) (hl : o.linkOk = false) :
    validateEffect o
      = ⟨(compileStage o .vertex).1 ++ (compileStage o .fragment).1
          ++ [ .createProgram, .attachShader .vertex, .attachShader .fragment,
            .linkProgram ],
        some ("LINKER ERROR (Varying Mismatch?):\n" ++ o.programLog), false⟩ := by
  unfold validateEffect
  rw [hgl, hv, hf, hcp, hl]
  rfl

theorem validateEffect_linkOk {o : GLOracle}
    (hgl : o.glOk = true) (hv : (compileStage o .vertex).2.error = none)
    (hf : (compileStage o .fragment).2.error = none)
    (hcp : o.createProgramOk = true) (hl : o.linkOk = true) :
    validateEffect o
      = ⟨(compileStage o .vertex).1 ++ (compileStage o .fragment).1
          ++ [ .createProgram, .attachShader .vertex, .attachShader .fragment,
            .linkProgram, .deleteShader .vertex, .deleteShader .fragment,
            .deleteProgram ],
        none, true⟩ := by
  unfold validateEffect
  rw [hgl, hv, hf, hcp, hl]
  rfl

theorem validateEffect_noProgram {o : GLOracle}
    (hgl : o.glOk = true) (hv : (compileStage o .vertex).2.error = none)
    (hf : (compileStage o .fragment).2.error = none)
    (hcp : o.createProgramOk = false) :
    validateEffect o
      = ⟨(compileStage o .vertex).1 ++ (compileStage o .fragment).1
          ++ [ .deleteShader .vertex, .deleteShader .fragment ],
        none, true⟩ := by
  unfold validateEffect
  rw [hgl, hv, hf, hcp]
  rfl

theorem validateEffect_error_not_success (o : GLOracle)
    (h : (validateEffect o).errorCall.isSome = true) :
    (validateEffect o).successCall = false := by
  cases hgl : o.glOk
  · rw [validateEffect_noGl hgl]
  · rcases hv : (compileStage o .vertex).2.error with _ | e
    · rcases hf : (compileStage o .fragment).2.error with _ | e
      · cases hcp : o.createProgramOk
        · rw [validateEffect_noProgram hgl hv hf hcp] at h
          simp at h
        · cases hl : o.linkOk
          · rw [validateEffect_linkError hgl hv hf hcp hl]
          · rw [validateEffect_linkOk hgl hv hf hcp hl] at h
            simp at h
      · rw [validateEffect_fragmentError hgl hv hf]
    · rw [validateEffect_vertexError hgl hv]


/-! ### Claims C1, C2, C4 -/

/-- C1: for every commit of a draft pair, a validation failure (reported
through `onError`, or any non-success) leaves the active safe pair and the
table exactly as they were, and a validation success replaces both
components of the safe pair together with the draft pair (table untouched);
the state after a commit is always either the old state or the old state
with the whole pair replaced, never a mix. -/
theorem c1_atomic_promotion (o : GLOracle) (dV dF : String) (st : MeshState) :
    ((validateEffect o).errorCall.isSome = true → commitStep o dV dF st = st)
    ∧ ((validateEffect o).successCall = false → commitStep o dV dF st = st)
    ∧ ((validateEffect o).successCall = true →
        commitStep o dV dF st = { st with safeVertex := dV, safeFragment := dF })
    ∧ (commitStep o dV dF st = st
        ∨ commitStep o dV dF st = { st with safeVertex := dV, safeFragment := dF }) := by
  refine ⟨?_, ?_, ?_, ?_⟩
  · intro h
    have hs := validateEffect_error_not_success o h
    simp [commitStep, hs]
  · intro h
    simp [commitStep, h]
  · intro h
    simp [commitStep, h]
  · cases h : (validateEffect o).successCall
    · left; simp [commitStep, h]
    · right; simp [commitStep, h]

/-- Witness for C1: on an all-success oracle the commit promotes the whole
pair; on a vertex-failure oracle the commit leaves the state untouched. -/
theorem c1_witness :
    (validateEffect oracleAllOk).successCall = true
    ∧ commitStep oracleAllOk "v2" "f2" sampleState
      = { sampleState with safeVertex := "v2", safeFragment := "f2" }
    ∧ (validateEffect oracleVertexFail).errorCall.isSome = true
    ∧ commitStep oracleVertexFail "v2" "f2" sampleState = sampleState :=
  ⟨rfl,
    (c1_atomic_promotion oracleAllOk "v2" "f2" sampleState).2.2.1 rfl,
    rfl,
    (c1_atomic_promotion oracleVertexFail "v2" "f2" sampleState).1 rfl⟩

/-- C2 counterexample: on a concrete attempt in which the vertex stage
fails to compile, the fragment source IS fed to the compiler and the
fragment compile call IS made (src/types.ts lines 309-310 run both
compiles before inspecting any error), while the attempt reports the
vertex failure. -/
theorem c2_counterexample :
    (validateEffect oracleVertexFail).errorCall.isSome = true
    ∧ GLEvent.sourceShader .fragment ∈ (validateEffect oracleVertexFail).events
    ∧ GLEvent.compileShader .fragment ∈ (validateEffect oracleVertexFail).events := by
  refine ⟨rfl, by decide, by decide⟩

/-- C2 (amended): when the vertex stage fails to compile, the attempt
reports the vertex failure and never creates or links a program, but the
fragment stage is still submitted to the compiler in the same attempt
(whenever its shader handle is created): both stages are compiled
unconditionally before any error is inspected. -/
theorem c2_vertex_failure_behavior (o : GLOracle)
    (hgl : o.glOk = true)
    (hvc : o.createShaderOk .vertex = true)
    (hv : o.compileOk .vertex = false)
    (hfc : o.createShaderOk .fragment = true) :
    (validateEffect o).errorCall
      = some ("VERTEX SHADER ERROR:\n"
          ++ parseErrorLog (o.shaderLog .vertex) vertexOffset)
    ∧ (validateEffect o).successCall = false
    ∧ GLEvent.sourceShader .fragment ∈ (validateEffect o).events
    ∧ GLEvent.compileShader .fragment ∈ (validateEffect o).events
    ∧ GLEvent.createProgram ∉ (validateEffect o).events
    ∧ GLEvent.linkProgram ∉ (validateEffect o).events := by
  have hvs : (compileStage o .vertex).2.error = some (o.shaderLog .vertex) := by
    rw [compileStage_fail hvc hv]
  rw [validateEffect_vertexError hgl hvs, compileStage_fail hvc hv]
  cases hf : o.compileOk .fragment
  · rw [compileStage_fail hfc hf]
    refine ⟨rfl, rfl, by simp, by simp, by simp, by simp⟩
  · rw [compileStage_ok hfc hf]
    refine ⟨rfl, rfl, by simp, by simp, by simp, by simp⟩

/-- Witness for C2 (amended) at the concrete vertex-failure oracle. -/
theorem c2_witness :
    oracleVertexFail.glOk = true
    ∧ oracleVertexFail.createShaderOk .vertex = true
    ∧ oracleVertexFail.compileOk .vertex = false
    ∧ oracleVertexFail.createShaderOk .fragment = true
    ∧ ((validateEffect oracleVertexFail).errorCall
        = some ("VERTEX SHADER ERROR:\n"
            ++ parseErrorLog (oracleVertexFail.shaderLog .vertex) vertexOffset)
      ∧ (validateEffect oracleVertexFail).successCall = false
      ∧ GLEvent.sourceShader .fragment ∈ (validateEffect oracleVertexFail).events
      ∧ GLEvent.compileShader .fragment ∈ (validateEffect oracleVertexFail).events
      ∧ GLEvent.createProgram ∉ (validateEffect oracleVertexFail).events
      ∧ GLEvent.linkProgram ∉ (validateEffect oracleVertexFail).events) :=
  ⟨rfl, rfl, rfl, rfl,
    c2_vertex_failure_behavior oracleVertexFail rfl rfl rfl rfl⟩

/-- C4 counterexample: on a concrete failing attempt (vertex compile
fails, fragment compiles), the fragment shader handle is allocated and
never destroyed before the attempt returns -- the failure exit paths skip
the cleanup block (src/types.ts lines 312-320 return before lines
336-339). -/
theorem c4_counterexample :
    (validateEffect oracleVertexFail).errorCall.isSome = true
    ∧ GLRes.shader .fragment ∈ allocatedRes (validateEffect oracleVertexFail).events
    ∧ GLRes.shader .fragment ∉ freedRes (validateEffect oracleVertexFail).events
    ∧ releasedAll (validateEffect oracleVertexFail).events = false := by
  refine ⟨rfl, by decide, by decide, by decide⟩

/-- C4 (amended): the success path destroys every resource allocated for
validation, and a failing stage's own shader is deleted inside `compile`;
but on the vertex-failure path a successfully compiled fragment shader is
never destroyed, on the fragment-failure path the vertex shader is never
destroyed, and on the link-failure path the two shaders and the program
are all leaked. -/
theorem c4_release_behavior :
    (∀ o : GLOracle, (validateEffect o).successCall = true →
      releasedAll (validateEffect o).events = true)
    ∧ (∀ o : GLOracle, o.glOk = true →
        o.createShaderOk .vertex = true → o.compileOk .vertex = false →
        o.createShaderOk .fragment = true → o.compileOk .fragment = true →
        GLRes.shader .fragment ∈ allocatedRes (validateEffect o).events
        ∧ GLRes.shader .fragment ∉ freedRes (validateEffect o).events)
    ∧ (∀ o : GLOracle, o.glOk = true →
        o.createShaderOk .vertex = true → o.compileOk .vertex = true →
        o.createShaderOk .fragment = true → o.compileOk .fragment = false →
        GLRes.shader .vertex ∈ allocatedRes (validateEffect o).events
        ∧ GLRes.shader .vertex ∉ freedRes (validateEffect o).events)
    ∧ (∀ o : GLOracle, o.glOk = true →
        o.createShaderOk .vertex = true → o.compileOk .vertex = true →
        o.createShaderOk .fragment = true → o.compileOk .fragment = true →
        o.createProgramOk = true → o.linkOk = false →
        allocatedRes (validateEffect o).events
          = [ .shader .vertex, .shader .fragment, .program ]
        ∧ freedRes (validateEffect o).events = []) := by
  refine ⟨?_, ?_, ?_, ?_⟩
  · intro o h
    cases hgl : o.glOk
    · rw [validateEffect_noGl hgl] at h
      simp at h
    · rcases hv : (compileStage o .vertex).2.error with _ | e
      · rcases hf : (compileStage o .fragment).2.error with _ | e
        · obtain ⟨hvc, hvk⟩ := compileStage_error_none hv
          obtain ⟨hfc, hfk⟩ := compileStage_error_none hf
          cases hcp : o.createProgramOk
          · rw [validateEffect_noProgram hgl hv hf hcp,
              compileStage_ok hvc hvk, compileStage_ok hfc hfk]
            decide
          · cases hl : o.linkOk
            · rw [validateEffect_linkError hgl hv hf hcp hl] at h
              simp at h
            · rw [validateEffect_linkOk hgl hv hf hcp hl,
                compileStage_ok hvc hvk, compileStage_ok hfc hfk]
              decide
        · rw [validateEffect_fragmentError hgl hv hf] at h
          simp at h
      · rw [validateEffect_vertexError hgl hv] at h
        simp at h
  · intro o hgl hvc hv hfc hf
    have hvs : (compileStage o .vertex).2.error = some (o.shaderLog .vertex) := by
      rw [compileStage_fail hvc hv]
    rw [validateEffect_vertexError hgl hvs, compileStage_fail hvc hv,
      compileStage_ok hfc hf]
    constructor <;> simp [allocatedRes, freedRes, allocOf, freeOf]
  · intro o hgl hvc hv hfc hf
    have hvn : (compileStage o .vertex).2.error = none := by
      rw [compileStage_ok hvc hv]
    have hfs : (compileStage o .fragment).2.error = some (o.shaderLog .fragment) := by
      rw [compileStage_fail hfc hf]
    rw [validateEffect_fragmentError hgl hvn hfs, compileStage_ok hvc hv,
      compileStage_fail hfc hf]
    constructor <;> simp [allocatedRes, freedRes, allocOf, freeOf]
  · intro o hgl hvc hv hfc hf hcp hl
    have hvn : (compileStage o .vertex).2.error = none := by
      rw [compileStage_ok hvc hv]
    have hfn : (compileStage o .fragment).2.error = none := by
      rw [compileStage_ok hfc hf]
    rw [validateEffect_linkError hgl hvn hfn hcp hl,
      compileStage_ok hvc hv, compileStage_ok hfc hf]
    constructor <;> simp [allocatedRes, freedRes, allocOf, freeOf]

/-- Witness for C4 (amended) on the four concrete oracles. -/
theorem c4_witness :
    ((validateEffect oracleAllOk).successCall = true
      ∧ releasedAll (validateEffect oracleAllOk).events = true)
    ∧ (GLRes.shader .fragment ∈ allocatedRes (validateEffect oracleVertexFail).events
      ∧ GLRes.shader .fragment ∉ freedRes (validateEffect oracleVertexFail).events)
    ∧ (GLRes.shader .vertex ∈ allocatedRes (validateEffect oracleFragmentFail).events
      ∧ GLRes.shader .vertex ∉ freedRes (validateEffect oracleFragmentFail).events)
    ∧ (allocatedRes (validateEffect oracleLinkFail).events
        = [ .shader .vertex, .shader .fragment, .program ]
      ∧ freedRes (validateEffect oracleLinkFail).events = []) :=
  ⟨⟨rfl, c4_release_behavior.1 oracleAllOk rfl⟩,
    c4_release_behavior.2.1 oracleVertexFail rfl rfl rfl rfl rfl,
    c4_release_behavior.2.2.1 oracleFragmentFail rfl rfl rfl rfl rfl,
    c4_release_behavior.2.2.2 oracleLinkFail rfl rfl rfl rfl rfl rfl rfl⟩



/-! ### Uniform table lemmas -/

theorem lookupTbl_cons_true {e : String × GVal} {t : Table} {nm : String}
    (h : (e.1 == nm) = true) : lookupTbl (e :: t) nm = some e.2 := by
  have hf : List.find? (fun x => x.1 == nm) (e :: t) = some e :=
    List.find?_cons_of_pos t h
  unfold lookupTbl
  rw [hf]

theorem lookupTbl_cons_false {e : String × GVal} {t : Table} {nm : String}
    (h : (e.1 == nm) = false) : lookupTbl (e :: t) nm = lookupTbl t nm := by
  have hf : List.find? (fun x => x.1 == nm) (e :: t)
      = List.find? (fun x => x.1 == nm) t :=
    List.find?_cons_of_neg t (by simp [h])
  unfold lookupTbl
  rw [hf]

theorem setEntry_cons (e : String × GVal) (t : Table) (nm : String) (v : GVal) :
    setEntry (e :: t) nm v
      = (if (e.1 == nm) = true then (e.1, v) else e) :: setEntry t nm v := rfl

theorem lookupTbl_setEntry_self (tbl : Table) (nm : String) (v : GVal) :
    lookupTbl (setEntry tbl nm v) nm = (lookupTbl tbl nm).map (fun _ => v) := by
  induction tbl with
  | nil => rfl
  | cons e t ih =>
    cases h : (e.1 == nm)
    · rw [setEntry_cons, if_neg (by simp [h]), lookupTbl_cons_false h,
        lookupTbl_cons_false h, ih]
    · rw [setEntry_cons, if_pos h,
        lookupTbl_cons_true (show (((e.1 : String), v).1 == nm) = true from h),
        lookupTbl_cons_true h]
      rfl

theorem lookupTbl_setEntry_ne (tbl : Table) {nm k : String} (v : GVal)
    (h : nm ≠ k) :
    lookupTbl (setEntry tbl k v) nm = lookupTbl tbl nm := by
  induction tbl with
  | nil => rfl
  | cons e t ih =>
    cases h1 : (e.1 == k)
    · cases h2 : (e.1 == nm)
      · rw [setEntry_cons, if_neg (by simp [h1]), lookupTbl_cons_false h2,
          lookupTbl_cons_false h2, ih]
      · rw [setEntry_cons, if_neg (by simp [h1]), lookupTbl_cons_true h2,
          lookupTbl_cons_true h2]
    · have h2 : (e.1 == nm) = false := by
        cases hx : (e.1 == nm)
        · rfl
        · exact absurd ((eq_of_beq h1).symm.trans (eq_of_beq hx)) (Ne.symm h)
      rw [setEntry_cons, if_pos h1,
        lookupTbl_cons_false (show (((e.1 : String), v).1 == nm) = false from h2),
        lookupTbl_cons_false h2, ih]

theorem lookupTbl_setEntry_isSome (tbl : Table) (nm k : String) (v : GVal) :
    (lookupTbl (setEntry tbl k v) nm).isSome = (lookupTbl tbl nm).isSome := by
  by_cases h : nm = k
  · subst h
    rw [lookupTbl_setEntry_self]
    cases lookupTbl tbl nm <;> rfl
  · rw [lookupTbl_setEntry_ne tbl v h]

theorem lookupTbl_append_sing_self (tbl : Table) (k : String) (v : GVal)
    (h : lookupTbl tbl k = none) :
    lookupTbl (tbl ++ [ (k, v) ]) k = some v := by
  induction tbl with
  | nil => exact lookupTbl_cons_true (by simp)
  | cons e t ih =>
    cases h1 : (e.1 == k)
    · rw [lookupTbl_cons_false h1] at h
      rw [List.cons_append, lookupTbl_cons_false h1]
      exact ih h
    · rw [lookupTbl_cons_true h1] at h
      exact absurd h (by simp)

theorem lookupTbl_append_sing_ne (tbl : Table) {nm k : String} (v : GVal)
    (h : nm ≠ k) :
    lookupTbl (tbl ++ [ (k, v) ]) nm = lookupTbl tbl nm := by
  induction tbl with
  | nil =>
    have hkn : ((k, v).1 == nm) = false := by
      cases hb : ((k, v).1 == nm)
      · rfl
      · exact absurd (eq_of_beq hb).symm h
    rw [List.nil_append, lookupTbl_cons_false hkn]
  | cons e t ih =>
    cases h1 : (e.1 == nm)
    · rw [List.cons_append, lookupTbl_cons_false h1, lookupTbl_cons_false h1, ih]
    · rw [List.cons_append, lookupTbl_cons_true h1, lookupTbl_cons_true h1]

/-! ### Reconciliation lemmas -/

theorem reconcileBase_lookup_ne (tbl : Table) (cu : CustomUniform) {nm : String}
    (h : nm ≠ cu.name) :
    lookupTbl (reconcileBase tbl cu) nm = lookupTbl tbl nm := by
  unfold reconcileBase
  rcases hl : lookupTbl tbl cu.name with _ | w
  · exact lookupTbl_append_sing_ne tbl _ h
  · cases hb : cu.binding.isNone
    · rfl
    · exact lookupTbl_setEntry_ne tbl _ h

theorem applyWrapFix_lookup_ne (tbl : Table) (cu : CustomUniform) {nm : String}
    (h : nm ≠ cu.name) :
    lookupTbl (applyWrapFix tbl cu) nm = lookupTbl tbl nm := by
  unfold applyWrapFix
  by_cases ht : cu.type = .sampler2D
  · rw [if_pos ht]
    rcases hl : lookupTbl tbl cu.name with _ | w
    · rfl
    · cases w <;>
        first
        | rfl
        | (rename_i url ws wt
           by_cases hw : ws ≠ getWrapMode cu.wrap ∨ wt ≠ getWrapMode cu.wrap
           · show lookupTbl (if ws ≠ getWrapMode cu.wrap ∨ wt ≠ getWrapMode cu.wrap
                 then setEntry tbl cu.name
                   (.tex url (getWrapMode cu.wrap) (getWrapMode cu.wrap))
                 else tbl) nm = lookupTbl tbl nm
             rw [if_pos hw]
             exact lookupTbl_setEntry_ne tbl _ h
           · show lookupTbl (if ws ≠ getWrapMode cu.wrap ∨ wt ≠ getWrapMode cu.wrap
                 then setEntry tbl cu.name
                   (.tex url (getWrapMode cu.wrap) (getWrapMode cu.wrap))
                 else tbl) nm = lookupTbl tbl nm
             rw [if_neg hw])
  · rw [if_neg ht]

theorem reconcileOne_lookup_ne (tbl : Table) (cu : CustomUniform) {nm : String}
    (h : nm ≠ cu.name) :
    lookupTbl (reconcileOne tbl cu) nm = lookupTbl tbl nm := by
  show lookupTbl (applyWrapFix (reconcileBase tbl cu) cu) nm = _
  rw [applyWrapFix_lookup_ne _ cu h, reconcileBase_lookup_ne tbl cu h]

theorem reconcileOne_skip (tbl : Table) (cu : CustomUniform)
    (hb : cu.binding.isSome = true) (ht : cu.type ≠ .sampler2D)
    (hs : (lookupTbl tbl cu.name).isSome = true) :
    reconcileOne tbl cu = tbl := by
  have hbn : cu.binding.isNone = false := by
    rcases hbb : cu.binding with _ | b
    · rw [hbb] at hb
      simp at hb
    · rfl
  have h1 : reconcileBase tbl cu = tbl := by
    unfold reconcileBase
    rcases hl : lookupTbl tbl cu.name with _ | w
    · rw [hl] at hs
      simp at hs
    · rw [hbn]
      rfl
  have h2 : applyWrapFix tbl cu = tbl := by
    unfold applyWrapFix
    rw [if_neg ht]
  show applyWrapFix (reconcileBase tbl cu) cu = tbl
  rw [h1, h2]

theorem reconciledValue_eq_convert (cu : CustomUniform)
    (ht : cu.type ≠ .sampler2D) :
    reconciledValue cu = convertValue cu := by
  unfold reconciledValue
  cases htp : cu.type
  case sampler2D => exact absurd htp ht
  all_goals rfl

theorem applyWrapFix_of_conv (tbl : Table) (cu : CustomUniform)
    (hs : lookupTbl tbl cu.name = some (convertValue cu)) :
    lookupTbl (applyWrapFix tbl cu) cu.name = some (reconciledValue cu) := by
  unfold applyWrapFix
  by_cases ht : cu.type = .sampler2D
  · rw [if_pos ht, hs]
    cases hcv : convertValue cu <;>
      first
      | (have hrv : reconciledValue cu = convertValue cu := by
            unfold reconciledValue
            rw [ht, hcv]
         show lookupTbl tbl cu.name = some (reconciledValue cu)
         rw [hs, hrv])
      | (rename_i url ws wt
         have hrv : reconciledValue cu
             = .tex url (getWrapMode cu.wrap) (getWrapMode cu.wrap) := by
           unfold reconciledValue
           rw [ht, hcv]
         by_cases hw : ws ≠ getWrapMode cu.wrap ∨ wt ≠ getWrapMode cu.wrap
         · show lookupTbl (if ws ≠ getWrapMode cu.wrap ∨ wt ≠ getWrapMode cu.wrap
               then setEntry tbl cu.name
                 (.tex url (getWrapMode cu.wrap) (getWrapMode cu.wrap))
               else tbl) cu.name = some (reconciledValue cu)
           rw [if_pos hw, hrv, lookupTbl_setEntry_self, hs]
           rfl
         · show lookupTbl (if ws ≠ getWrapMode cu.wrap ∨ wt ≠ getWrapMode cu.wrap
               then setEntry tbl cu.name
                 (.tex url (getWrapMode cu.wrap) (getWrapMode cu.wrap))
               else tbl) cu.name = some (reconciledValue cu)
           rw [if_neg hw, hs, hrv, hcv]
           push_neg at hw
           rw [hw.1, hw.2])
  · rw [if_neg ht, reconciledValue_eq_convert cu ht, hs]

theorem applyWrapFix_of_reconciled (tbl : Table) (cu : CustomUniform)
    (hs : lookupTbl tbl cu.name = some (reconciledValue cu)) :
    lookupTbl (applyWrapFix tbl cu) cu.name = some (reconciledValue cu) := by
  unfold applyWrapFix
  by_cases ht : cu.type = .sampler2D
  · rw [if_pos ht, hs]
    cases hcv : convertValue cu <;>
      first
      | (have hrv : reconciledValue cu = convertValue cu := by
            unfold reconciledValue
            rw [ht, hcv]
         rw [hrv, hcv]
         show lookupTbl tbl cu.name = _
         rw [hs, hrv, hcv])
      | (rename_i url ws wt
         have hrv : reconciledValue cu
             = .tex url (getWrapMode cu.wrap) (getWrapMode cu.wrap) := by
           unfold reconciledValue
           rw [ht, hcv]
         rw [hrv]
         show lookupTbl (if getWrapMode cu.wrap ≠ getWrapMode cu.wrap
               ∨ getWrapMode cu.wrap ≠ getWrapMode cu.wrap
             then setEntry tbl cu.name
               (.tex url (getWrapMode cu.wrap) (getWrapMode cu.wrap))
             else tbl) cu.name
           = some (.tex url (getWrapMode cu.wrap) (getWrapMode cu.wrap))
         rw [if_neg (by push_neg; exact ⟨rfl, rfl⟩), hs, hrv])
  · rw [if_neg ht, hs]

theorem reconcileOne_write_manual (tbl : Table) (cu : CustomUniform)
    (hb : cu.binding = none) :
    lookupTbl (reconcileOne tbl cu) cu.name = some (reconciledValue cu) := by
  have h1 : lookupTbl (reconcileBase tbl cu) cu.name = some (convertValue cu) := by
    unfold reconcileBase
    rcases hl : lookupTbl tbl cu.name with _ | w
    · exact lookupTbl_append_sing_self tbl _ _ hl
    · have hbn : cu.binding.isNone = true := by rw [hb]; rfl
      rw [hbn]
      show lookupTbl (setEntry tbl cu.name (convertValue cu)) cu.name = _
      rw [lookupTbl_setEntry_self, hl]
      rfl
  exact applyWrapFix_of_conv _ cu h1

theorem reconcileOne_create (tbl : Table) (cu : CustomUniform)
    (hnone : lookupTbl tbl cu.name = none) :
    lookupTbl (reconcileOne tbl cu) cu.name = some (reconciledValue cu) := by
  have h1 : lookupTbl (reconcileBase tbl cu) cu.name = some (convertValue cu) := by
    unfold reconcileBase
    rw [hnone]
    exact lookupTbl_append_sing_self tbl _ _ hnone
  exact applyWrapFix_of_conv _ cu h1

theorem reconcileOne_preserve_reconciled (tbl : Table) (cu : CustomUniform)
    (hs : lookupTbl tbl cu.name = some (reconciledValue cu)) :
    lookupTbl (reconcileOne tbl cu) cu.name = some (reconciledValue cu) := by
  cases hb : cu.binding
  case some b =>
    have h1 : reconcileBase tbl cu = tbl := by
      unfold reconcileBase
      rw [hs]
      have hbn : cu.binding.isNone = false := by rw [hb]; rfl
      rw [hbn]
      rfl
    show lookupTbl (applyWrapFix (reconcileBase tbl cu) cu) cu.name = _
    rw [h1]
    exact applyWrapFix_of_reconciled tbl cu hs
  case none => exact reconcileOne_write_manual tbl cu hb


/-! ### Fold-level reconciliation lemmas -/

theorem reconcileUniforms_lookup_ne (cus : List CustomUniform) {nm : String} :
    ∀ tbl : Table, (∀ cu ∈ cus, cu.name ≠ nm) →
      lookupTbl (reconcileUniforms cus tbl) nm = lookupTbl tbl nm := by
  induction cus with
  | nil => intro tbl _; rfl
  | cons cu0 rest ih =>
    intro tbl h
    show lookupTbl (reconcileUniforms rest (reconcileOne tbl cu0)) nm = _
    rw [ih _ (fun cu hc => h cu (List.mem_cons_of_mem _ hc)),
      reconcileOne_lookup_ne tbl cu0 (Ne.symm (h cu0 (List.mem_cons_self _ _)))]

theorem reconcileUniforms_write_manual (cus : List CustomUniform)
    (cu : CustomUniform) (hb : cu.binding = none) :
    ∀ tbl : Table, cu ∈ cus → (∀ cu' ∈ cus, cu'.name = cu.name → cu' = cu) →
      lookupTbl (reconcileUniforms cus tbl) cu.name = some (reconciledValue cu) := by
  induction cus with
  | nil => intro tbl hmem _; simp at hmem
  | cons cu0 rest ih =>
    intro tbl hmem huni
    show lookupTbl (reconcileUniforms rest (reconcileOne tbl cu0)) cu.name = _
    by_cases h0 : cu0 = cu
    · subst h0
      by_cases hr : cu0 ∈ rest
      · exact ih _ hr (fun cu' hc hn => huni cu' (List.mem_cons_of_mem _ hc) hn)
      · have hall : ∀ cu' ∈ rest, cu'.name ≠ cu0.name := by
          intro cu' hc hn
          exact hr ((huni cu' (List.mem_cons_of_mem _ hc) hn) ▸ hc)
        rw [reconcileUniforms_lookup_ne rest _ hall]
        exact reconcileOne_write_manual tbl cu0 hb
    · have hmem' : cu ∈ rest := by
        rcases List.mem_cons.mp hmem with h | h
        · exact absurd h.symm h0
        · exact h
      exact ih _ hmem' (fun cu' hc hn => huni cu' (List.mem_cons_of_mem _ hc) hn)

theorem reconcileUniforms_keep_reconciled (cus : List CustomUniform)
    (cu : CustomUniform) :
    ∀ tbl : Table, cu ∈ cus → (∀ cu' ∈ cus, cu'.name = cu.name → cu' = cu) →
      (lookupTbl tbl cu.name = none
        ∨ lookupTbl tbl cu.name = some (reconciledValue cu)) →
      lookupTbl (reconcileUniforms cus tbl) cu.name = some (reconciledValue cu) := by
  induction cus with
  | nil => intro tbl hmem _ _; simp at hmem
  | cons cu0 rest ih =>
    intro tbl hmem huni hp
    show lookupTbl (reconcileUniforms rest (reconcileOne tbl cu0)) cu.name = _
    by_cases h0 : cu0 = cu
    · subst h0
      have hcur : lookupTbl (reconcileOne tbl cu0) cu0.name
          = some (reconciledValue cu0) := by
        rcases hp with hp | hp
        · exact reconcileOne_create tbl cu0 hp
        · exact reconcileOne_preserve_reconciled tbl cu0 hp
      by_cases hr : cu0 ∈ rest
      · exact ih _ hr (fun cu' hc hn => huni cu' (List.mem_cons_of_mem _ hc) hn)
          (Or.inr hcur)
      · have hall : ∀ cu' ∈ rest, cu'.name ≠ cu0.name := by
          intro cu' hc hn
          exact hr ((huni cu' (List.mem_cons_of_mem _ hc) hn) ▸ hc)
        rw [reconcileUniforms_lookup_ne rest _ hall]
        exact hcur
    · have hmem' : cu ∈ rest := by
        rcases List.mem_cons.mp hmem with h | h
        · exact absurd h.symm h0
        · exact h
      have hne : cu0.name ≠ cu.name :=
        fun hn => h0 (huni cu0 (List.mem_cons_self _ _) hn)
      have hp' : lookupTbl (reconcileOne tbl cu0) cu.name = none
          ∨ lookupTbl (reconcileOne tbl cu0) cu.name
            = some (reconciledValue cu) := by
        rw [reconcileOne_lookup_ne tbl cu0 (Ne.symm hne)]
        exact hp
      exact ih _ hmem' (fun cu' hc hn => huni cu' (List.mem_cons_of_mem _ hc) hn) hp'

theorem reconcileUniforms_skip (cus : List CustomUniform) (cu : CustomUniform)
    (hb : cu.binding.isSome = true) (ht : cu.type ≠ .sampler2D) :
    ∀ tbl : Table, cu ∈ cus → (∀ cu' ∈ cus, cu'.name = cu.name → cu' = cu) →
      (lookupTbl tbl cu.name).isSome = true →
      lookupTbl (reconcileUniforms cus tbl) cu.name = lookupTbl tbl cu.name := by
  induction cus with
  | nil => intro tbl hmem _ _; simp at hmem
  | cons cu0 rest ih =>
    intro tbl hmem huni hs
    show lookupTbl (reconcileUniforms rest (reconcileOne tbl cu0)) cu.name = _
    by_cases h0 : cu0 = cu
    · subst h0
      rw [reconcileOne_skip tbl cu0 hb ht hs]
      by_cases hr : cu0 ∈ rest
      · exact ih _ hr (fun cu' hc hn => huni cu' (List.mem_cons_of_mem _ hc) hn) hs
      · have hall : ∀ cu' ∈ rest, cu'.name ≠ cu0.name := by
          intro cu' hc hn
          exact hr ((huni cu' (List.mem_cons_of_mem _ hc) hn) ▸ hc)
        exact reconcileUniforms_lookup_ne rest _ hall
    · have hmem' : cu ∈ rest := by
        rcases List.mem_cons.mp hmem with h | h
        · exact absurd h.symm h0
        · exact h
      have hne : cu0.name ≠ cu.name :=
        fun hn => h0 (huni cu0 (List.mem_cons_self _ _) hn)
      have heq := reconcileOne_lookup_ne tbl cu0 (Ne.symm hne)
      have hs' : (lookupTbl (reconcileOne tbl cu0) cu.name).isSome = true := by
        rw [heq]; exact hs
      rw [ih _ hmem' (fun cu' hc hn => huni cu' (List.mem_cons_of_mem _ hc) hn) hs',
        heq]

/-! ### Light-sync and frame lemmas -/

theorem syncLights_lookup_ne (conv : String → ℚ × ℚ × ℚ) (lights : List Light)
    (tbl : Table) {nm : String} (h : nm ∉ lightSlotNames) :
    lookupTbl (syncLights conv lights tbl) nm = lookupTbl tbl nm := by
  have h1 : nm ≠ "u_lightPos" := by
    intro hx; exact h (by rw [hx]; simp [lightSlotNames])
  have h2 : nm ≠ "u_lightColor" := by
    intro hx; exact h (by rw [hx]; simp [lightSlotNames])
  have h3 : nm ≠ "u_lightIntensity" := by
    intro hx; exact h (by rw [hx]; simp [lightSlotNames])
  unfold syncLights
  split
  · rw [lookupTbl_setEntry_ne _ _ h3, lookupTbl_setEntry_ne _ _ h2,
      lookupTbl_setEntry_ne _ _ h1]
  · rfl

theorem bindOne_lookup_ne (fr : FrameState) (tbl : Table) (cu : CustomUniform)
    {nm : String} (h : nm ≠ cu.name) :
    lookupTbl (bindOne fr tbl cu) nm = lookupTbl tbl nm := by
  unfold bindOne
  rcases hb : cu.binding with _ | b
  · rfl
  · cases b
    · rcases hl : lookupTbl tbl cu.name with _ | w
      · rfl
      · exact lookupTbl_setEntry_ne tbl _ h
    · rcases hl : lookupTbl tbl cu.name with _ | w
      · rfl
      · exact lookupTbl_setEntry_ne tbl _ h

theorem bindOne_isSome (fr : FrameState) (tbl : Table) (cu : CustomUniform)
    (nm : String) :
    (lookupTbl (bindOne fr tbl cu) nm).isSome = (lookupTbl tbl nm).isSome := by
  unfold bindOne
  rcases hb : cu.binding with _ | b
  · rfl
  · cases b
    · rcases hl : lookupTbl tbl cu.name with _ | w
      · rfl
      · exact lookupTbl_setEntry_isSome tbl nm _ _
    · rcases hl : lookupTbl tbl cu.name with _ | w
      · rfl
      · exact lookupTbl_setEntry_isSome tbl nm _ _

theorem bindOne_time_write (fr : FrameState) (tbl : Table) (cu : CustomUniform)
    (hb : cu.binding = some .time) (hs : (lookupTbl tbl cu.name).isSome = true) :
    lookupTbl (bindOne fr tbl cu) cu.name = some (.num fr.elapsedTime) := by
  unfold bindOne
  rw [hb]
  rcases hl : lookupTbl tbl cu.name with _ | w
  · rw [hl] at hs; simp at hs
  · show lookupTbl (setEntry tbl cu.name (.num fr.elapsedTime)) cu.name = _
    rw [lookupTbl_setEntry_self, hl]
    rfl

theorem bindFold_lookup_ne (fr : FrameState) (cus : List CustomUniform)
    {nm : String} :
    ∀ tbl : Table, (∀ cu ∈ cus, cu.name ≠ nm) →
      lookupTbl (cus.foldl (bindOne fr) tbl) nm = lookupTbl tbl nm := by
  induction cus with
  | nil => intro tbl _; rfl
  | cons cu0 rest ih =>
    intro tbl h
    show lookupTbl (rest.foldl (bindOne fr) (bindOne fr tbl cu0)) nm = _
    rw [ih _ (fun cu hc => h cu (List.mem_cons_of_mem _ hc)),
      bindOne_lookup_ne fr tbl cu0 (Ne.symm (h cu0 (List.mem_cons_self _ _)))]

theorem bindFold_time (fr : FrameState) (cus : List CustomUniform)
    (cu : CustomUniform) (hb : cu.binding = some .time) :
    ∀ tbl : Table, cu ∈ cus → (∀ cu' ∈ cus, cu'.name = cu.name → cu' = cu) →
      (lookupTbl tbl cu.name).isSome = true →
      lookupTbl (cus.foldl (bindOne fr) tbl) cu.name
        = some (.num fr.elapsedTime) := by
  induction cus with
  | nil => intro tbl hmem _ _; simp at hmem
  | cons cu0 rest ih =>
    intro tbl hmem huni hs
    show lookupTbl (rest.foldl (bindOne fr) (bindOne fr tbl cu0)) cu.name = _
    by_cases h0 : cu0 = cu
    · subst h0
      have hw := bindOne_time_write fr tbl cu0 hb hs
      by_cases hr : cu0 ∈ rest
      · exact ih _ hr (fun cu' hc hn => huni cu' (List.mem_cons_of_mem _ hc) hn)
          (by rw [hw]; rfl)
      · have hall : ∀ cu' ∈ rest, cu'.name ≠ cu0.name := by
          intro cu' hc hn
          exact hr ((huni cu' (List.mem_cons_of_mem _ hc) hn) ▸ hc)
        rw [bindFold_lookup_ne fr rest _ hall]
        exact hw
    · have hmem' : cu ∈ rest := by
        rcases List.mem_cons.mp hmem with h | h
        · exact absurd h.symm h0
        · exact h
      have hne : cu0.name ≠ cu.name :=
        fun hn => h0 (huni cu0 (List.mem_cons_self _ _) hn)
      have heq := bindOne_lookup_ne fr tbl cu0 (Ne.symm hne)
      have hs' : (lookupTbl (bindOne fr tbl cu0) cu.name).isSome = true := by
        rw [heq]; exact hs
      exact ih _ hmem' (fun cu' hc hn => huni cu' (List.mem_cons_of_mem _ hc) hn) hs'

theorem writeMouse_lookup_ne (fr : FrameState) (tbl : Table) (k : String)
    {nm : String} (h : nm ≠ k) :
    lookupTbl (writeMouse fr tbl k) nm = lookupTbl tbl nm := by
  unfold writeMouse
  rcases hl : lookupTbl tbl k with _ | w
  · rfl
  · exact lookupTbl_setEntry_ne tbl _ h

theorem writeMouse_isSome (fr : FrameState) (tbl : Table) (k nm : String) :
    (lookupTbl (writeMouse fr tbl k) nm).isSome = (lookupTbl tbl nm).isSome := by
  unfold writeMouse
  rcases hl : lookupTbl tbl k with _ | w
  · rfl
  · exact lookupTbl_setEntry_isSome tbl nm _ _

theorem framePre_isSome (fr : FrameState) (tbl : Table) (nm : String) :
    (lookupTbl (framePre fr tbl) nm).isSome = (lookupTbl tbl nm).isSome := by
  unfold framePre
  rw [lookupTbl_setEntry_isSome, lookupTbl_setEntry_isSome, writeMouse_isSome,
    lookupTbl_setEntry_isSome]


theorem framePre_time (fr : FrameState) (tbl : Table)
    (hs : (lookupTbl tbl "u_time").isSome = true) :
    lookupTbl (framePre fr tbl) "u_time" = some (.num fr.elapsedTime) := by
  unfold framePre
  rw [lookupTbl_setEntry_ne _ _ (by decide : "u_time" ≠ "u_cameraPosition"),
    lookupTbl_setEntry_ne _ _ (by decide : "u_time" ≠ "u_resolution"),
    writeMouse_lookup_ne fr _ _ (by decide : "u_time" ≠ "u_mouse"),
    lookupTbl_setEntry_self]
  rcases hl : lookupTbl tbl "u_time" with _ | w
  · rw [hl] at hs; simp at hs
  · rfl

theorem framePre_mouse (fr : FrameState) (tbl : Table) (a b : ℚ)
    (hm : lookupTbl tbl "u_mouse" = some (.v2 a b)) :
    lookupTbl (framePre fr tbl) "u_mouse"
      = some (.v2 ((fr.pointerX + 1) / 2) ((fr.pointerY + 1) / 2)) := by
  unfold framePre
  rw [lookupTbl_setEntry_ne _ _ (by decide : "u_mouse" ≠ "u_cameraPosition"),
    lookupTbl_setEntry_ne _ _ (by decide : "u_mouse" ≠ "u_resolution")]
  have h1 : lookupTbl (setEntry tbl "u_time" (.num fr.elapsedTime)) "u_mouse"
      = some (.v2 a b) := by
    rw [lookupTbl_setEntry_ne _ _ (by decide : "u_mouse" ≠ "u_time")]
    exact hm
  unfold writeMouse
  rw [h1]
  show lookupTbl (setEntry (setEntry tbl "u_time" (.num fr.elapsedTime)) "u_mouse"
    (mutXYVal (.v2 a b) ((fr.pointerX + 1) / 2) ((fr.pointerY + 1) / 2)))
    "u_mouse" = _
  rw [lookupTbl_setEntry_self, h1]
  rfl

theorem framePre_resolution (fr : FrameState) (tbl : Table)
    (hs : (lookupTbl tbl "u_resolution").isSome = true) :
    lookupTbl (framePre fr tbl) "u_resolution"
      = some (.v2 (fr.width * fr.dpr) (fr.height * fr.dpr)) := by
  unfold framePre
  rw [lookupTbl_setEntry_ne _ _ (by decide : "u_resolution" ≠ "u_cameraPosition"),
    lookupTbl_setEntry_self]
  have hx : (lookupTbl
      (writeMouse fr (setEntry tbl "u_time" (.num fr.elapsedTime)) "u_mouse")
      "u_resolution").isSome = true := by
    rw [writeMouse_isSome, lookupTbl_setEntry_isSome]
    exact hs
  rcases hl : lookupTbl
      (writeMouse fr (setEntry tbl "u_time" (.num fr.elapsedTime)) "u_mouse")
      "u_resolution" with _ | w
  · rw [hl] at hx; simp at hx
  · rfl

theorem framePre_camera (fr : FrameState) (tbl : Table)
    (hs : (lookupTbl tbl "u_cameraPosition").isSome = true) :
    lookupTbl (framePre fr tbl) "u_cameraPosition"
      = some (.v3 fr.camX fr.camY fr.camZ) := by
  unfold framePre
  rw [lookupTbl_setEntry_self]
  have hx : (lookupTbl (setEntry
      (writeMouse fr (setEntry tbl "u_time" (.num fr.elapsedTime)) "u_mouse")
      "u_resolution" (.v2 (fr.width * fr.dpr) (fr.height * fr.dpr)))
      "u_cameraPosition").isSome = true := by
    rw [lookupTbl_setEntry_isSome, writeMouse_isSome, lookupTbl_setEntry_isSome]
    exact hs
  rcases hl : lookupTbl (setEntry
      (writeMouse fr (setEntry tbl "u_time" (.num fr.elapsedTime)) "u_mouse")
      "u_resolution" (.v2 (fr.width * fr.dpr) (fr.height * fr.dpr)))
      "u_cameraPosition" with _ | w
  · rw [hl] at hx; simp at hx
  · rfl


/-! ### Claims C5, C6, C8, C9 -/

/-- C5 counterexample: a successful commit changes the active pair, yet a
table entry `u_old` -- which a new program declaring no uniforms does not
list -- survives the swap: the memoized table is never cleared. -/
theorem c5_counterexample : ¬ tableClearedOnSwap [] := by
  intro h
  have hx := h oracleAllOk "v2" "f2" sampleState "u_old" (by decide) (by simp)
  exact absurd hx (by decide)

/-- C5 (amended): replacing the active pair re-creates the material (its
key is the safe pair), but the uniform table object is memoized once per
component lifetime and reused by every material: a commit -- successful or
not -- leaves the table identical, so entries keyed by names absent from
the new program's interface are retained rather than cleared. -/
theorem c5_table_persists (o : GLOracle) (dV dF : String) (st : MeshState) :
    (commitStep o dV dF st).table = st.table := by
  unfold commitStep
  split <;> rfl

/-- C6: for a declaration bound to `Time` whose name has a live table
entry: (1) after any rendered frame the entry holds exactly the engine's
elapsed time, whatever the manual value (so two runs differing only in
the manual value render the same uniform); (2) the per-edit
reconciliation pass leaves the entry untouched while the binding is set
(non-sampler declarations); (3) with the binding removed, the next
reconciliation writes the converted manual value again. -/
theorem c6_binding_override :
    (∀ (cus : List CustomUniform) (fr : FrameState) (tbl : Table)
        (cu : CustomUniform),
      cu ∈ cus → (∀ cu' ∈ cus, cu'.name = cu.name → cu' = cu) →
      cu.binding = some .time → (lookupTbl tbl cu.name).isSome = true →
      lookupTbl (frameStep cus fr tbl) cu.name = some (.num fr.elapsedTime))
    ∧ (∀ (conv : String → ℚ × ℚ × ℚ) (cus : List CustomUniform)
        (lights : List Light) (tbl : Table) (cu : CustomUniform),
      cu ∈ cus → (∀ cu' ∈ cus, cu'.name = cu.name → cu' = cu) →
      cu.binding = some .time → cu.type ≠ .sampler2D →
      cu.name ∉ lightSlotNames → (lookupTbl tbl cu.name).isSome = true →
      lookupTbl (editStep conv cus lights tbl) cu.name = lookupTbl tbl cu.name)
    ∧ (∀ (conv : String → ℚ × ℚ × ℚ) (cus : List CustomUniform)
        (lights : List Light) (tbl : Table) (cu : CustomUniform),
      cu ∈ cus → (∀ cu' ∈ cus, cu'.name = cu.name → cu' = cu) →
      cu.binding = none → cu.type ≠ .sampler2D → cu.name ∉ lightSlotNames →
      lookupTbl (editStep conv cus lights tbl) cu.name
        = some (convertValue cu)) := by
  refine ⟨?_, ?_, ?_⟩
  · intro cus fr tbl cu hmem huni hb hs
    have hs' : (lookupTbl (framePre fr tbl) cu.name).isSome = true := by
      rw [framePre_isSome]
      exact hs
    exact bindFold_time fr cus cu hb (framePre fr tbl) hmem huni hs'
  · intro conv cus lights tbl cu hmem huni hb ht hln hs
    show lookupTbl (syncLights conv lights (reconcileUniforms cus tbl)) cu.name = _
    rw [syncLights_lookup_ne conv lights _ hln]
    exact reconcileUniforms_skip cus cu (by rw [hb]; rfl) ht tbl hmem huni hs
  · intro conv cus lights tbl cu hmem huni hb ht hln
    show lookupTbl (syncLights conv lights (reconcileUniforms cus tbl)) cu.name = _
    rw [syncLights_lookup_ne conv lights _ hln,
      reconcileUniforms_write_manual cus cu hb tbl hmem huni]
    rw [reconciledValue_eq_convert cu ht]

/-- Witness for C6 on a concrete time-bound float declaration `u_speed`
with manual value 3, over the memoized table extended with a `u_speed`
entry holding 7. -/
theorem c6_witness :
    cuTime ∈ [ cuTime ]
    ∧ (∀ cu' ∈ [ cuTime ], cu'.name = cuTime.name → cu' = cuTime)
    ∧ cuTime.binding = some .time
    ∧ (lookupTbl tblSpeed cuTime.name).isSome = true
    ∧ cuTime.type ≠ .sampler2D
    ∧ cuTime.name ∉ lightSlotNames
    ∧ lookupTbl (frameStep [ cuTime ] frTop tblSpeed) cuTime.name
      = some (.num frTop.elapsedTime)
    ∧ lookupTbl (editStep convWhite [ cuTime ] [] tblSpeed) cuTime.name
      = lookupTbl tblSpeed cuTime.name
    ∧ lookupTbl (editStep convWhite [ cuTimeUnbound ] [] tblSpeed)
        cuTimeUnbound.name = some (convertValue cuTimeUnbound) :=
  ⟨by decide, by decide, by decide, by decide, by decide, by decide,
    c6_binding_override.1 [ cuTime ] frTop tblSpeed cuTime (by decide)
      (by decide) (by decide) (by decide),
    c6_binding_override.2.1 convWhite [ cuTime ] [] tblSpeed cuTime (by decide)
      (by decide) (by decide) (by decide) (by decide) (by decide),
    c6_binding_override.2.2 convWhite [ cuTimeUnbound ] [] tblSpeed
      cuTimeUnbound (by decide) (by decide) (by decide) (by decide) (by decide)⟩

/-- C8 counterexample: with the pointer on the TOP edge of the viewport
(host-engine NDC `pointer.y = +1`), the frame write leaves
`u_mouse = (1/2, 1)`: the y component at the top edge is 1, not 0 as an
origin at the top-left would demand. -/
theorem c8_counterexample :
    frTop.pointerY = ndcTopEdgeY
    ∧ lookupTbl (frameStep [] frTop initUniforms) "u_mouse"
      = some (.v2 (1 / 2) 1)
    ∧ (1 : ℚ) ≠ 0 := by
  refine ⟨rfl, ?_, by norm_num⟩
  show lookupTbl (framePre frTop initUniforms) "u_mouse" = _
  rw [framePre_mouse frTop initUniforms 0 0 (by decide)]
  norm_num [frTop, ndcTopEdgeY]

/-- C8 (amended): each rendered frame writes `u_time` equal to the
elapsed clock time, `u_resolution` equal to the css size times the device
pixel ratio, `u_cameraPosition` equal to the camera world position, and
`u_mouse` equal to `(pointer + 1) / 2` componentwise, which lies in
`[0,1] x [0,1]` for an NDC pointer; in the host engine's convention the
top edge has `pointer.y = +1`, so `u_mouse.y = 1` (not 0) at the top
edge: the origin is at the bottom-left. -/
theorem c8_frame_builtins (cus : List CustomUniform) (fr : FrameState)
    (tbl : Table) (a b : ℚ)
    (hnb : ∀ cu ∈ cus, cu.name ∉ builtinNames)
    (ht : (lookupTbl tbl "u_time").isSome = true)
    (hr : (lookupTbl tbl "u_resolution").isSome = true)
    (hc : (lookupTbl tbl "u_cameraPosition").isSome = true)
    (hm : lookupTbl tbl "u_mouse" = some (.v2 a b))
    (hpx : -1 ≤ fr.pointerX ∧ fr.pointerX ≤ 1)
    (hpy : -1 ≤ fr.pointerY ∧ fr.pointerY ≤ 1) :
    lookupTbl (frameStep cus fr tbl) "u_time" = some (.num fr.elapsedTime)
    ∧ lookupTbl (frameStep cus fr tbl) "u_resolution"
      = some (.v2 (fr.width * fr.dpr) (fr.height * fr.dpr))
    ∧ lookupTbl (frameStep cus fr tbl) "u_cameraPosition"
      = some (.v3 fr.camX fr.camY fr.camZ)
    ∧ lookupTbl (frameStep cus fr tbl) "u_mouse"
      = some (.v2 ((fr.pointerX + 1) / 2) ((fr.pointerY + 1) / 2))
    ∧ (0 ≤ (fr.pointerX + 1) / 2 ∧ (fr.pointerX + 1) / 2 ≤ 1)
    ∧ (0 ≤ (fr.pointerY + 1) / 2 ∧ (fr.pointerY + 1) / 2 ≤ 1)
    ∧ (fr.pointerY = ndcTopEdgeY → (fr.pointerY + 1) / 2 = 1) := by
  have hfold : ∀ nm, nm ∈ builtinNames →
      lookupTbl (frameStep cus fr tbl) nm = lookupTbl (framePre fr tbl) nm := by
    intro nm hnm
    exact bindFold_lookup_ne fr cus (framePre fr tbl)
      (fun cu hcu heq => hnb cu hcu (heq ▸ hnm))
  refine ⟨?_, ?_, ?_, ?_, ?_, ?_, ?_⟩
  · rw [hfold "u_time" (by decide)]
    exact framePre_time fr tbl ht
  · rw [hfold "u_resolution" (by decide)]
    exact framePre_resolution fr tbl hr
  · rw [hfold "u_cameraPosition" (by decide)]
    exact framePre_camera fr tbl hc
  · rw [hfold "u_mouse" (by decide)]
    exact framePre_mouse fr tbl a b hm
  · constructor
    · linarith [hpx.1]
    · linarith [hpx.2]
  · constructor
    · linarith [hpy.1]
    · linarith [hpy.2]
  · intro hy
    rw [hy]
    norm_num [ndcTopEdgeY]

/-- Witness for C8 (amended) on a concrete frame over the memoized
table. -/
theorem c8_witness :
    (∀ cu ∈ ([] : List CustomUniform), cu.name ∉ builtinNames)
    ∧ (lookupTbl initUniforms "u_time").isSome = true
    ∧ (lookupTbl initUniforms "u_resolution").isSome = true
    ∧ (lookupTbl initUniforms "u_cameraPosition").isSome = true
    ∧ lookupTbl initUniforms "u_mouse" = some (.v2 0 0)
    ∧ (-1 ≤ frTop.pointerX ∧ frTop.pointerX ≤ 1)
    ∧ (-1 ≤ frTop.pointerY ∧ frTop.pointerY ≤ 1)
    ∧ (lookupTbl (frameStep [] frTop initUniforms) "u_time"
        = some (.num frTop.elapsedTime)
      ∧ lookupTbl (frameStep [] frTop initUniforms) "u_resolution"
        = some (.v2 (frTop.width * frTop.dpr) (frTop.height * frTop.dpr))
      ∧ lookupTbl (frameStep [] frTop initUniforms) "u_cameraPosition"
        = some (.v3 frTop.camX frTop.camY frTop.camZ)
      ∧ lookupTbl (frameStep [] frTop initUniforms) "u_mouse"
        = some (.v2 ((frTop.pointerX + 1) / 2) ((frTop.pointerY + 1) / 2))
      ∧ (0 ≤ (frTop.pointerX + 1) / 2 ∧ (frTop.pointerX + 1) / 2 ≤ 1)
      ∧ (0 ≤ (frTop.pointerY + 1) / 2 ∧ (frTop.pointerY + 1) / 2 ≤ 1)
      ∧ (frTop.pointerY = ndcTopEdgeY → (frTop.pointerY + 1) / 2 = 1)) :=
  ⟨by simp, by decide, by decide, by decide, by decide,
    by constructor <;> norm_num [frTop],
    by constructor <;> norm_num [frTop, ndcTopEdgeY],
    c8_frame_builtins [] frTop initUniforms 0 0 (by simp) (by decide)
      (by decide) (by decide) (by decide)
      (by constructor <;> norm_num [frTop])
      (by constructor <;> norm_num [frTop, ndcTopEdgeY])⟩

/-- C9: a declaration whose name has no entry in the live table gets a
fresh entry holding its converted value (with the sampler wrap-mode
adjustment applied), created by the reconciliation pass with no error
path -- the pass is a total function. -/
theorem c9_create_if_absent (conv : String → ℚ × ℚ × ℚ)
    (cus : List CustomUniform) (lights : List Light) (tbl : Table)
    (cu : CustomUniform) (hmem : cu ∈ cus)
    (huni : ∀ cu' ∈ cus, cu'.name = cu.name → cu' = cu)
    (habs : lookupTbl tbl cu.name = none)
    (hln : cu.name ∉ lightSlotNames) :
    lookupTbl (editStep conv cus lights tbl) cu.name
      = some (reconciledValue cu) := by
  show lookupTbl (syncLights conv lights (reconcileUniforms cus tbl)) cu.name = _
  rw [syncLights_lookup_ne conv lights _ hln]
  exact reconcileUniforms_keep_reconciled cus cu tbl hmem huni (Or.inl habs)

/-- Witness for C9: a vec2 declaration named `u_missing`, absent from the
memoized table, is created with its converted value. -/
theorem c9_witness :
    cuOrphan ∈ [ cuOrphan ]
    ∧ (∀ cu' ∈ [ cuOrphan ], cu'.name = cuOrphan.name → cu' = cuOrphan)
    ∧ lookupTbl initUniforms cuOrphan.name = none
    ∧ cuOrphan.name ∉ lightSlotNames
    ∧ lookupTbl (editStep convWhite [ cuOrphan ] [] initUniforms) cuOrphan.name
      = some (reconciledValue cuOrphan) :=
  ⟨by decide, by decide, by decide, by decide,
    c9_create_if_absent convWhite [ cuOrphan ] [] initUniforms cuOrphan
      (by decide) (by decide) (by decide) (by decide)⟩


/-! ### Light slot lemmas and claims C7, C10 -/

theorem fillSlots_lt (conv : String → ℚ × ℚ × ℚ) (ls : List Light) :
    ∀ (k : Nat) (s : LightSlots) (i : Nat), i < k →
      (fillSlots conv k ls s).pos.get? i = s.pos.get? i
      ∧ (fillSlots conv k ls s).col.get? i = s.col.get? i
      ∧ (fillSlots conv k ls s).inten.get? i = s.inten.get? i := by
  induction ls with
  | nil => intro k s i _; exact ⟨rfl, rfl, rfl⟩
  | cons l0 ls' ih =>
    intro k s i h
    have hstep : fillSlots conv k (l0 :: ls') s
        = fillSlots conv (k + 1) ls'
          ⟨s.pos.set k l0.position, s.col.set k (conv l0.color),
            s.inten.set k l0.intensity⟩ := rfl
    rw [hstep]
    obtain ⟨hp, hc, hi⟩ := ih (k + 1)
      ⟨s.pos.set k l0.position, s.col.set k (conv l0.color),
        s.inten.set k l0.intensity⟩ i (by omega)
    refine ⟨hp.trans ?_, hc.trans ?_, hi.trans ?_⟩ <;>
      exact List.get?_set_ne _ _ (by omega)

theorem fillSlots_ge (conv : String → ℚ × ℚ × ℚ) (ls : List Light) :
    ∀ (k : Nat) (s : LightSlots) (i : Nat), k + ls.length ≤ i →
      (fillSlots conv k ls s).pos.get? i = s.pos.get? i
      ∧ (fillSlots conv k ls s).col.get? i = s.col.get? i
      ∧ (fillSlots conv k ls s).inten.get? i = s.inten.get? i := by
  induction ls with
  | nil => intro k s i _; exact ⟨rfl, rfl, rfl⟩
  | cons l0 ls' ih =>
    intro k s i h
    simp only [List.length_cons] at h
    have hstep : fillSlots conv k (l0 :: ls') s
        = fillSlots conv (k + 1) ls'
          ⟨s.pos.set k l0.position, s.col.set k (conv l0.color),
            s.inten.set k l0.intensity⟩ := rfl
    rw [hstep]
    obtain ⟨hp, hc, hi⟩ := ih (k + 1)
      ⟨s.pos.set k l0.position, s.col.set k (conv l0.color),
        s.inten.set k l0.intensity⟩ i (by omega)
    refine ⟨hp.trans ?_, hc.trans ?_, hi.trans ?_⟩ <;>
      exact List.get?_set_ne _ _ (by omega)

theorem fillSlots_get (conv : String → ℚ × ℚ × ℚ) (ls : List Light) :
    ∀ (k : Nat) (s : LightSlots) (i : Nat) (l : Light),
      ls.get? (i - k) = some l → k ≤ i →
      i < s.pos.length → i < s.col.length → i < s.inten.length →
      (fillSlots conv k ls s).pos.get? i = some l.position
      ∧ (fillSlots conv k ls s).col.get? i = some (conv l.color)
      ∧ (fillSlots conv k ls s).inten.get? i = some l.intensity := by
  induction ls with
  | nil => intro k s i l hg _ _ _ _; simp at hg
  | cons l0 ls' ih =>
    intro k s i l hg hk hp hc hi
    have hstep : fillSlots conv k (l0 :: ls') s
        = fillSlots conv (k + 1) ls'
          ⟨s.pos.set k l0.position, s.col.set k (conv l0.color),
            s.inten.set k l0.intensity⟩ := rfl
    rw [hstep]
    by_cases hik : i = k
    · subst hik
      rw [Nat.sub_self] at hg
      have hl : l0 = l := by simpa using hg
      subst hl
      obtain ⟨hp', hc', hi'⟩ := fillSlots_lt conv ls' (i + 1)
        ⟨s.pos.set i l0.position, s.col.set i (conv l0.color),
          s.inten.set i l0.intensity⟩ i (by omega)
      exact ⟨hp'.trans (List.get?_set_eq_of_lt _ hp),
        hc'.trans (List.get?_set_eq_of_lt _ hc),
        hi'.trans (List.get?_set_eq_of_lt _ hi)⟩
    · have hg' : ls'.get? (i - (k + 1)) = some l := by
        have hx : i - k = (i - (k + 1)) + 1 := by omega
        rw [hx] at hg
        exact hg
      exact ih (k + 1)
        ⟨s.pos.set k l0.position, s.col.set k (conv l0.color),
          s.inten.set k l0.intensity⟩ i l hg' (by omega)
        (by show i < (s.pos.set k l0.position).length
            rw [List.length_set]; exact hp)
        (by show i < (s.col.set k (conv l0.color)).length
            rw [List.length_set]; exact hc)
        (by show i < (s.inten.set k l0.intensity).length
            rw [List.length_set]; exact hi)

theorem reset_inten_get (l : List ℚ) (i : Nat) (h4 : i < 4)
    (hlen : i < l.length) :
    ((((l.set 0 0).set 1 0).set 2 0).set 3 0).get? i = some 0 := by
  interval_cases i
  · rw [List.get?_set_ne _ _ (by omega), List.get?_set_ne _ _ (by omega),
      List.get?_set_ne _ _ (by omega)]
    exact List.get?_set_eq_of_lt _ hlen
  · rw [List.get?_set_ne _ _ (by omega), List.get?_set_ne _ _ (by omega)]
    exact List.get?_set_eq_of_lt _ (by rw [List.length_set]; exact hlen)
  · rw [List.get?_set_ne _ _ (by omega)]
    exact List.get?_set_eq_of_lt _
      (by rw [List.length_set, List.length_set]; exact hlen)
  · exact List.get?_set_eq_of_lt _
      (by rw [List.length_set, List.length_set, List.length_set]; exact hlen)

/-- C7: the light-sync pass writes the first `min(4, N)` lights, in list
order, into slots `0 .. min(4,N)-1` of the position, color and intensity
arrays; every slot at an index at or past the list length (and below 4)
ends with intensity 0 while its position and color keep their previous
values.  Because the pass only reads `lights.take 4`, lights past the
fourth reach no slot. -/
theorem c7_light_slot_saturation (conv : String → ℚ × ℚ × ℚ)
    (lights : List Light) (s : LightSlots)
    (hp : s.pos.length = 4) (hc : s.col.length = 4) (hi : s.inten.length = 4) :
    (∀ (i : Nat) (l : Light), lights.get? i = some l → i < 4 →
      (lightSlots conv lights s).pos.get? i = some l.position
      ∧ (lightSlots conv lights s).col.get? i = some (conv l.color)
      ∧ (lightSlots conv lights s).inten.get? i = some l.intensity)
    ∧ (∀ i : Nat, lights.length ≤ i → i < 4 →
      (lightSlots conv lights s).inten.get? i = some 0
      ∧ (lightSlots conv lights s).pos.get? i = s.pos.get? i
      ∧ (lightSlots conv lights s).col.get? i = s.col.get? i) := by
  constructor
  · intro i l hg h4
    have hg' : (lights.take 4).get? (i - 0) = some l := by
      rw [Nat.sub_zero, List.get?_take h4]
      exact hg
    exact fillSlots_get conv (lights.take 4) 0 (resetIntensities s) i l hg'
      (by omega)
      (by show i < s.pos.length; omega)
      (by show i < s.col.length; omega)
      (by show i < ((((s.inten.set 0 0).set 1 0).set 2 0).set 3 0).length
          rw [List.length_set, List.length_set, List.length_set, List.length_set]
          omega)
  · intro i hn h4
    have hlen : 0 + (lights.take 4).length ≤ i := by
      rw [Nat.zero_add, List.length_take]
      omega
    obtain ⟨hp', hc', hi'⟩ :=
      fillSlots_ge conv (lights.take 4) 0 (resetIntensities s) i hlen
    refine ⟨hi'.trans ?_, hp', hc'⟩
    exact reset_inten_get s.inten i h4 (by omega)

/-- Witness for C7 on two concrete lights and fresh slot arrays: slot 1
receives the second light, slot 2 gets intensity 0 with stale position
and color. -/
theorem c7_witness :
    slots0.pos.length = 4 ∧ slots0.col.length = 4 ∧ slots0.inten.length = 4
    ∧ lightsTwo.get? 1 = some ⟨"l2", (4, 5, 6), "#00ff00", 3⟩
    ∧ ((lightSlots convWhite lightsTwo slots0).pos.get? 1 = some (4, 5, 6)
      ∧ (lightSlots convWhite lightsTwo slots0).col.get? 1 = some (1, 1, 1)
      ∧ (lightSlots convWhite lightsTwo slots0).inten.get? 1 = some 3)
    ∧ ((lightSlots convWhite lightsTwo slots0).inten.get? 2 = some 0
      ∧ (lightSlots convWhite lightsTwo slots0).pos.get? 2 = slots0.pos.get? 2
      ∧ (lightSlots convWhite lightsTwo slots0).col.get? 2
        = slots0.col.get? 2) :=
  ⟨by decide, by decide, by decide, by decide,
    (c7_light_slot_saturation convWhite lightsTwo slots0 (by decide) (by decide)
      (by decide)).1 1 ⟨"l2", (4, 5, 6), "#00ff00", 3⟩ (by decide) (by decide),
    (c7_light_slot_saturation convWhite lightsTwo slots0 (by decide) (by decide)
      (by decide)).2 2 (by decide) (by decide)⟩

/-- C10: `addLight` is a no-op at 4 or more lights and otherwise appends
one; `removeLight` never grows the list; `updateLight` keeps its length;
consequently every list reachable from a list of at most 4 lights through
the UI operations has at most 4 lights. -/
theorem c10_light_cap :
    (∀ (id : String) (lights : List Light), 4 ≤ lights.length →
      addLight id lights = lights)
    ∧ (∀ (id : String) (lights : List Light), lights.length ≤ 4 →
      (addLight id lights).length ≤ 4)
    ∧ (∀ (id : String) (lights : List Light),
      (removeLight id lights).length ≤ lights.length)
    ∧ (∀ (id : String) (f : LightField) (lights : List Light),
      (updateLight id f lights).length = lights.length)
    ∧ (∀ (ops : List LightOp) (init : List Light), init.length ≤ 4 →
      (ops.foldl applyLightOp init).length ≤ 4) := by
  have hnoop : ∀ (id : String) (lights : List Light), 4 ≤ lights.length →
      addLight id lights = lights := by
    intro id lights h
    unfold addLight
    rw [if_pos h]
  have hadd : ∀ (id : String) (lights : List Light), lights.length ≤ 4 →
      (addLight id lights).length ≤ 4 := by
    intro id lights h
    unfold addLight
    split
    · exact h
    · rename_i hlt
      rw [List.length_append, List.length_cons, List.length_nil]
      omega
  have hrem : ∀ (id : String) (lights : List Light),
      (removeLight id lights).length ≤ lights.length := by
    intro id lights
    exact List.length_filter_le _ _
  have hupd : ∀ (id : String) (f : LightField) (lights : List Light),
      (updateLight id f lights).length = lights.length := by
    intro id f lights
    exact List.length_map _ _
  refine ⟨hnoop, hadd, hrem, hupd, ?_⟩
  intro ops
  induction ops with
  | nil => intro init h; exact h
  | cons op rest ih =>
    intro init h
    show (rest.foldl applyLightOp (applyLightOp init op)).length ≤ 4
    refine ih _ ?_
    cases op with
    | add id => exact hadd id init h
    | remove id => exact le_trans (hrem id init) h
    | update id f => exact le_of_eq_of_le (hupd id f init) h

/-- Witness for C10: five adds from the empty list stop at four lights,
and `addLight` on a four-light list is the identity. -/
theorem c10_witness :
    ([] : List Light).length ≤ 4
    ∧ (([ LightOp.add "a", LightOp.add "b", LightOp.add "c", LightOp.add "d",
        LightOp.add "e" ].foldl applyLightOp ([] : List Light)).length ≤ 4)
    ∧ 4 ≤ ([ newLight "a", newLight "b", newLight "c", newLight "d" ]
        : List Light).length
    ∧ addLight "e" [ newLight "a", newLight "b", newLight "c", newLight "d" ]
      = [ newLight "a", newLight "b", newLight "c", newLight "d" ] :=
  ⟨by decide,
    c10_light_cap.2.2.2.2 [ LightOp.add "a", LightOp.add "b", LightOp.add "c",
      LightOp.add "d", LightOp.add "e" ] [] (by decide),
    by decide,
    c10_light_cap.1 "e"
      [ newLight "a", newLight "b", newLight "c", newLight "d" ] (by decide)⟩

end ShaderLab
